import Mathlib

/-!
# VoxSynopsis transcription core: shallow embedding and verification

This file embeds, in Lean 4, the parts of the VoxSynopsis transcription core
that the checked claims are about, and proves (or refutes) each claim.

The embedded source units are:
* `src/core/batch_transcription.py` — `BatchTranscriptionThread._determine_optimal_batch_size`,
  `_process_files_in_batches`, `_process_files_sequential`, `_generate_final_report`;
* `src/core/transcription.py` — `TranscriptionThread._split_audio_with_ffmpeg_silence`
  (cut-point planning), `_check_batch_support`, the `should_use_batch` decision in `run`,
  and `_get_audio_duration_ffmpeg`;
* `src/core/cache.py` — `FileCache.get_duration`;
* `src/core/loop_detector.py` — `LightweightLoopDetector.detect` and
  `QuickQualityValidator.validate` / `is_acceptable_quality`;
* `src/core/recovery_manager.py` — `CoreRecoveryManager.recover_transcription`
  with its strategy ladder.

Modelling conventions.  Python floats are modelled as `ℚ` (every comparison a
claim depends on has a wide margin, so float rounding is immaterial).  Python
strings are modelled as `List Char` and functions that may raise as
`Except (List Char)` computations.  Out-of-process effects (the inference
engine, `ffprobe`/`ffmpeg`, `os.stat`, wall-clock time) are modelled as
explicit environment records passed to the embedded functions.  The regex
searches of the loop detector are modelled at word level (the patterns only
quantify over word repetitions); Python's full-Unicode `str.lower` is
modelled by an ASCII lowering that agrees on every string these theorems
evaluate.
-/

set_option maxRecDepth 16000

set_option linter.unusedVariables false

namespace VoxSynopsis

/-! Kernel-computable rational arithmetic.

Batteries marks `Rat.add`, `Rat.sub`, `Rat.mul`, `Rat.inv` as irreducible, so
terms built from `+`, `*`, `/` on `ℚ` cannot be evaluated by `decide`.  The
embedded code is therefore written with the wrappers below, each proved equal
to the corresponding standard operation (see the `qadd_eq` family), so that
symbolic proofs can move back to the standard operations while concrete runs
of the embedded code still evaluate in the kernel. -/

def qadd (a b : ℚ) : ℚ := Rat.divInt (a.num * b.den + b.num * a.den) (a.den * b.den)

def qsub (a b : ℚ) : ℚ := Rat.divInt (a.num * b.den - b.num * a.den) (a.den * b.den)

def qmul (a b : ℚ) : ℚ := Rat.divInt (a.num * b.num) (a.den * b.den)

def qdiv (a b : ℚ) : ℚ := Rat.divInt (a.num * b.den) (a.den * b.num)

def qneg (a : ℚ) : ℚ := Rat.divInt (-a.num) a.den

def qabs (a : ℚ) : ℚ := if a < 0 then qneg a else a

def qmax (a b : ℚ) : ℚ := if a ≤ b then b else a

def qmin (a b : ℚ) : ℚ := if b ≤ a then b else a

/-- Truncation of a rational toward zero (Python `int(x)`). -/
def ratTruncInt (q : ℚ) : Int := q.num / (q.den : Int)

/-- Truncation of a rational toward zero, clamped to `ℕ` (Python `int(x)`
for the nonnegative values the code feeds it). -/
def ratTruncNat (q : ℚ) : Nat := (ratTruncInt q).toNat

/-! Python text primitives, modelled over `List Char` (Lean `String`
operations are compiler intrinsics that the kernel cannot evaluate, so all
text manipulation is done on the underlying character lists; `String.data`
bridges literals into the model).  A `List Char` is one Python `str`; Python
`len` is `List.length` (both count code points). -/

/-- Characters Python `str.split()` / `str.strip()` treat as whitespace
(ASCII subset; the embedded texts contain no exotic whitespace). -/
def isSpaceChar (c : Char) : Bool :=
  c = ' ' || c = '\t' || c = '\n' || c = '\r' || c = '\x0b' || c = '\x0c'

/-- Python `str.strip()`. -/
def pyStrip (l : List Char) : List Char :=
  ((l.dropWhile isSpaceChar).reverse.dropWhile isSpaceChar).reverse

/-- Helper for `pySplit`: accumulates the current word (reversed). -/
def pySplitAux : List Char → List Char → List (List Char)
  | [], acc => if acc.isEmpty then [] else [acc.reverse]
  | c :: rest, acc =>
    if isSpaceChar c then
      if acc.isEmpty then pySplitAux rest [] else acc.reverse :: pySplitAux rest []
    else pySplitAux rest (c :: acc)

/-- Python `str.split()` with no argument: split on whitespace runs,
discarding empty fields. -/
def pySplit (l : List Char) : List (List Char) := pySplitAux l []

/-- Python `' '.join(parts)` (and, with other separators, `sep.join`). -/
def joinWith (sep : List Char) (parts : List (List Char)) : List Char :=
  List.intercalate sep parts

/-- ASCII lowering, modelling Python `str.lower()`.  (Python lowers the full
Unicode range; the strings evaluated in this file are case-distinguished only
in ASCII, where the two agree.) -/
def lowerChar (c : Char) : Char :=
  if 'A' ≤ c ∧ c ≤ 'Z' then Char.ofNat (c.toNat + 32) else c

def lowerWord (w : List Char) : List Char := w.map lowerChar

/-- Size of a Python `set` of words (case already normalised by callers). -/
def countUnique (ws : List (List Char)) : Nat :=
  (ws.foldl (fun acc w => if w ∈ acc then acc else w :: acc) []).length

/-- Decimal digits of a natural number, most significant first. -/
def natToCharsAux : Nat → Nat → List Char
  | 0, _ => []
  | fuel + 1, n =>
    if n < 10 then [Char.ofNat (48 + n)]
    else natToCharsAux fuel (n / 10) ++ [Char.ofNat (48 + n % 10)]

def natToChars (n : Nat) : List Char := natToCharsAux (n + 1) n

/-- Python `f"{x:.1f}"` on the nonnegative rationals the code formats
(rounding to one decimal; Python rounds the underlying double half-to-even,
which agrees on every value this file evaluates). -/
def fmt1 (x : ℚ) : List Char :=
  let n : Int := ratTruncInt (qadd (qmul x 10) (Rat.divInt 1 2))
  let a := n.natAbs
  (if n < 0 then ['-'] else []) ++ natToChars (a / 10) ++ ['.'] ++ natToChars (a % 10)

/-- `os.path.basename` for the POSIX paths the code handles. -/
def basename (p : List Char) : List Char :=
  p.foldl (fun acc c => if c = '/' then [] else acc ++ [c]) []

/-! ## Batch scheduler: `_determine_optimal_batch_size`
(`src/core/batch_transcription.py`, lines 100–123)

`get_hardware_info` supplies `memory_gb` (a float, rounded to 0.1 GB) and
`physical_cores`; `len(self.audio_files)` is `fileCount`.  Python's `//` on
nonnegative ints is `Nat.div`. -/

def determineOptimalBatchSize (autoBatchSize : Bool) (batchSize : Nat)
    (memoryGb : ℚ) (physicalCores : Nat) (fileCount : Nat) : Nat :=
  if !autoBatchSize then
    batchSize
  else
    let optimalBatch : Nat :=
      if memoryGb ≥ 32 then min 16 (physicalCores * 2)
      else if memoryGb ≥ 16 then min 8 physicalCores
      else if memoryGb ≥ 8 then min 4 (physicalCores / 2)
      else 2
    min optimalBatch fileCount

/-! ## Batch decision: `_check_batch_support` and `should_use_batch`
(`src/core/transcription.py`, lines 80–88 and 644–650)

`_check_batch_support` returns `False` when `BatchedInferencePipeline` cannot
be imported, else compares total memory against 8 GB.  `run` combines it with
the `use_batch_processing` setting and the file-count threshold; when the
conjunction is false the method falls through to the sequential path. -/

def checkBatchSupport (pipelineImportable : Bool) (memoryGb : ℚ) : Bool :=
  pipelineImportable && decide (memoryGb ≥ 8)

def shouldUseBatch (useBatchProcessing : Bool) (totalFiles batchThreshold : Nat)
    (pipelineImportable : Bool) (memoryGb : ℚ) : Bool :=
  useBatchProcessing && decide (totalFiles ≥ batchThreshold) &&
    checkBatchSupport pipelineImportable memoryGb

/-- The two processing paths `TranscriptionThread.run` can take after the
batch decision. -/
inductive RunPath where
  | batched
  | sequential
  deriving DecidableEq, Repr

def runProcessingPath (useBatchProcessing : Bool) (totalFiles batchThreshold : Nat)
    (pipelineImportable : Bool) (memoryGb : ℚ) : RunPath :=
  if shouldUseBatch useBatchProcessing totalFiles batchThreshold pipelineImportable memoryGb then
    RunPath.batched
  else
    RunPath.sequential

/-! ## Loop detector (`src/core/loop_detector.py`, class `LightweightLoopDetector`)

`detect` is a pure function of the text and the optional audio duration (its
statistics updates have no effect on any return value and are omitted).  The
four precompiled regexes of `_compile_patterns` quantify only over whitespace
separated word repetitions, and are modelled here at word level:
`\b(\w+(?:\s+\w+){0,2})\s+(?:\1\s*){3,}` is a group of 1–3 words followed by
at least 3 further consecutive repetitions of the group, and so on.  Matching
is case-insensitive (`re.IGNORECASE`), modelled by lowering both sides.  The
span-based confidence of `_calculate_pattern_confidence`
(`min(2*len(match)/len(text), 1)`) is computed from the matched words plus
single separating spaces. -/

structure LoopDetectionResult where
  hasLoop : Bool
  loopType : List Char
  confidence : ℚ
  pattern : Option (List Char) := Option.none
  wordDiversity : ℚ := 0
  deriving DecidableEq

/-- Constructor defaults of `LightweightLoopDetector.__init__`.
(`max_repetition_ratio = 0.7` is stored by the constructor but never read by
any code path modelled here, and is omitted.) -/
structure DetectorParams where
  minWordDiversity : ℚ := Rat.divInt 3 10
  minTextLength : Nat := 20

def defaultDetectorParams : DetectorParams := {}

/-- `_clean_text`: whitespace normalisation, then `[.!?,:;]` replaced by
spaces, then strip. -/
def cleanText (text : List Char) : List Char :=
  let cleaned := joinWith [' '] (pySplit text)
  let cleaned := cleaned.map fun c =>
    if c = '.' ∨ c = '!' ∨ c = '?' ∨ c = ',' ∨ c = ':' ∨ c = ';' then ' ' else c
  pyStrip cleaned

/-- Number of consecutive occurrences of `phrase` at the head of `toks`
(fuel-structured so the kernel can evaluate it). -/
def countRepeatsAux (phrase : List (List Char)) : Nat → List (List Char) → Nat
  | 0, _ => 0
  | fuel + 1, toks =>
    if phrase.isPrefixOf toks then 1 + countRepeatsAux phrase fuel (toks.drop phrase.length)
    else 0

def countRepeats (phrase : List (List Char)) (toks : List (List Char)) : Nat :=
  if phrase.isEmpty then 0 else countRepeatsAux phrase toks.length toks

/-- At one starting position, try group lengths 3, 2, 1 (regex greediness) and
report a group repeated at least `minCount` times in total. -/
def phraseRepeatAt (minCount : Nat) (lens : List Nat) (suffix : List (List Char)) :
    Option (List (List Char) × Nat) :=
  lens.findSome? fun k =>
    if k ≤ suffix.length then
      let phrase := suffix.take k
      let n := countRepeats phrase suffix
      if n ≥ minCount then some (phrase, n) else Option.none
    else Option.none

/-- Leftmost word-level repetition match. -/
def findRepeat (minCount : Nat) (lens : List Nat) (toks : List (List Char)) :
    Option (List (List Char) × Nat) :=
  toks.tails.findSome? (phraseRepeatAt minCount lens)

/-- Characters spanned by `n` copies of `phrase` separated by single spaces. -/
def spanChars (phrase : List (List Char)) (n : Nat) : Nat :=
  let words := n * phrase.length
  n * (phrase.foldl (fun acc w => acc + w.length) 0) + (words - 1)

/-- `_calculate_pattern_confidence`: `min(2 * len(match) / len(text), 1.0)`. -/
def patternConfidence (phrase : List (List Char)) (n : Nat) (text : List Char) : ℚ :=
  qmin (qmul 2 (qdiv (spanChars phrase n : ℚ) (text.length : ℚ))) 1

/-- The matched span reported by `_detect_patterns` (`match.group(0)`,
truncated to 50 characters plus an ellipsis). -/
def patternSpanText (phrase : List (List Char)) (n : Nat) : List Char :=
  let s := joinWith [' '] (List.flatten (List.replicate n phrase))
  if s.length > 50 then s.take 50 ++ "...".data else s

/-- `_detect_patterns`: the four patterns in dict order, first match wins. -/
def detectPatterns (text : List Char) : LoopDetectionResult :=
  let toks := (pySplit text).map lowerWord
  let found :=
    match findRepeat 4 [3, 2, 1] toks with
    | some (ph, n) => some ("pattern_phrase_loop".data, ph, n)
    | Option.none =>
      match (toks.tails.findSome? fun s =>
          let n := countRepeats ["o".data, "que".data, "é".data] s
          if n ≥ 3 then some n else Option.none) with
      | some n => some ("pattern_o_que_e_loop".data, ["o".data, "que".data, "é".data], n)
      | Option.none =>
        match findRepeat 5 [1] toks with
        | some (ph, n) => some ("pattern_word_loop".data, ph, n)
        | Option.none =>
          match (toks.tails.findSome? fun s =>
              match phraseRepeatAt 7 [1] s with
              | some (ph, n) => if ph.flatten.length ≥ 2 then some (ph, n) else Option.none
              | Option.none => Option.none) with
          | some (ph, n) => some ("pattern_excessive_repetition".data, ph, n)
          | Option.none => Option.none
  match found with
  | some (name, ph, n) =>
    { hasLoop := true, loopType := name, confidence := patternConfidence ph n text,
      pattern := some (patternSpanText ph n) }
  | Option.none => { hasLoop := false, loopType := "no_pattern".data, confidence := 0 }

/-- `_calculate_word_diversity`: unique lowercased words over total words
(`1.0` for empty text). -/
def calculateWordDiversity (text : List Char) : ℚ :=
  let words := pySplit text
  if words.isEmpty then 1
  else qdiv (countUnique (words.map lowerWord) : ℚ) (words.length : ℚ)

/-- `_detect_low_diversity`. -/
def detectLowDiversity (p : DetectorParams) (text : List Char) : LoopDetectionResult :=
  let diversity := calculateWordDiversity text
  if diversity < p.minWordDiversity ∧ (pySplit text).length ≥ 10 then
    { hasLoop := true, loopType := "low_diversity".data, confidence := qsub 1 diversity,
      wordDiversity := diversity }
  else
    { hasLoop := false, loopType := "good_diversity".data, confidence := 0,
      wordDiversity := diversity }

/-- `_validate_length_ratio` (skipped when the duration is `None`, `0.0` — a
falsy float — or negative). -/
def validateLengthRatio (text : List Char) (audioDuration : Option ℚ) : LoopDetectionResult :=
  match audioDuration with
  | Option.none => { hasLoop := false, loopType := "no_duration".data, confidence := 0 }
  | some d =>
    if d ≤ 0 then { hasLoop := false, loopType := "no_duration".data, confidence := 0 }
    else
      let words : ℚ := ((pySplit text).length : ℚ)
      let expectedWordsMin := qmul (qdiv d 60) 100
      let expectedWordsMax := qmul (qdiv d 60) 250
      if words > qmul expectedWordsMax 2 then
        { hasLoop := true, loopType := "excessive_length".data, confidence := Rat.divInt 7 10 }
      else if words < qmul expectedWordsMin (Rat.divInt 3 10) ∧ d > 5 then
        { hasLoop := true, loopType := "insufficient_length".data, confidence := Rat.divInt 6 10 }
      else { hasLoop := false, loopType := "appropriate_length".data, confidence := 0 }

/-- `LightweightLoopDetector.detect`: length gate, then patterns, then
diversity, then length ratio, first match wins. -/
def detect (p : DetectorParams) (text : List Char) (audioDuration : Option ℚ) :
    LoopDetectionResult :=
  if text.isEmpty ∨ (pyStrip text).length < p.minTextLength then
    { hasLoop := false, loopType := "too_short".data, confidence := 0 }
  else
    let cleanedText := cleanText text
    let patternResult := detectPatterns cleanedText
    if patternResult.hasLoop then patternResult
    else
      let diversityResult := detectLowDiversity p cleanedText
      if diversityResult.hasLoop then diversityResult
      else
        let lengthResult := validateLengthRatio cleanedText audioDuration
        if lengthResult.hasLoop then lengthResult
        else
          { hasLoop := false, loopType := "clean".data, confidence := 0,
            wordDiversity := calculateWordDiversity cleanedText }

/-! ## Quality validator (`src/core/loop_detector.py`, class `QuickQualityValidator`) -/

/-- `_score_word_diversity`. -/
def scoreWordDiversity (text : List Char) : ℚ :=
  let words := pySplit text
  if words.length < 3 then Rat.divInt 8 10
  else qmin (qmul (qdiv (countUnique (words.map lowerWord) : ℚ) (words.length : ℚ)) 2) 1

/-- `_score_basic_structure`: base 0.5, +0.25 for `[.!?]`, +0.25 for `[A-Z]`
(the regex is ASCII-only). -/
def scoreBasicStructure (text : List Char) : ℚ :=
  let hasPunctuation := text.any fun c => c = '.' ∨ c = '!' ∨ c = '?'
  let hasCapital := text.any fun c => 'A' ≤ c ∧ c ≤ 'Z'
  qadd (qadd (Rat.divInt 1 2) (if hasPunctuation then Rat.divInt 1 4 else 0))
    (if hasCapital then Rat.divInt 1 4 else 0)

/-- `_score_length_appropriateness`. -/
def scoreLengthAppropriateness (text : List Char) (audioDuration : Option ℚ) : ℚ :=
  match audioDuration with
  | Option.none => Rat.divInt 7 10
  | some d =>
    if d ≤ 0 then Rat.divInt 7 10
    else
      let wordsPerMinute := qdiv ((pySplit text).length : ℚ) (qdiv d 60)
      if 120 ≤ wordsPerMinute ∧ wordsPerMinute ≤ 200 then 1
      else if 80 ≤ wordsPerMinute ∧ wordsPerMinute ≤ 300 then Rat.divInt 8 10
      else if 50 ≤ wordsPerMinute ∧ wordsPerMinute ≤ 400 then Rat.divInt 6 10
      else Rat.divInt 3 10

/-- `_score_repetition_penalty`: runs a fresh default-configured detector with
no duration. -/
def scoreRepetitionPenalty (text : List Char) : ℚ :=
  let result := detect defaultDetectorParams text Option.none
  if result.hasLoop then qmax (qsub 1 result.confidence) 0 else 1

/-- `QuickQualityValidator.validate`: weighted average of the four scores,
clamped to `[0, 1]`; `0.0` for texts whose strip is shorter than 5. -/
def validate (text : List Char) (audioDuration : Option ℚ) : ℚ :=
  if text.isEmpty ∨ (pyStrip text).length < 5 then 0
  else
    let weighted :=
      qadd (qadd (qadd
        (qmul (scoreWordDiversity text) (Rat.divInt 3 10))
        (qmul (scoreBasicStructure text) (Rat.divInt 2 10)))
        (qmul (scoreLengthAppropriateness text audioDuration) (Rat.divInt 2 10)))
        (qmul (scoreRepetitionPenalty text) (Rat.divInt 3 10))
  qmin (qmax weighted 0) 1

/-- `QuickQualityValidator.is_acceptable_quality` (`min_quality_threshold = 0.6`). -/
def isAcceptableQuality (text : List Char) (audioDuration : Option ℚ) : Bool :=
  decide (validate text audioDuration ≥ Rat.divInt 6 10)

/-! ## Silence-aware cut planner
(`src/core/transcription.py`, `_split_audio_with_ffmpeg_silence`, lines 275–337)

Step 3 of the method: given the probed `total_duration`, the configured
`target_chunk_duration` and the `silence_starts` parsed from `silencedetect`,
compute the ordered cut points; step 4 then cuts `[last_start, end_time)`
intervals, with `last_start` starting at `0.0`. -/

/-- The `best_cut` scan: the first silence start in list order strictly after
`next_target`, with `-1.0` as the not-found sentinel. -/
def firstSilenceAfter (silenceStarts : List ℚ) (nextTarget : ℚ) : ℚ :=
  match silenceStarts with
  | [] => -1
  | s :: rest => if s > nextTarget then s else firstSilenceAfter rest nextTarget

/-- The `while current_pos < total_duration` loop computing `cut_points`,
fuel-structured; `cutPoints` supplies sufficient fuel. -/
def cutPointsLoop (totalDuration targetChunkDuration : ℚ) (silenceStarts : List ℚ) :
    Nat → ℚ → List ℚ
  | 0, _ => []
  | fuel + 1, currentPos =>
    if currentPos < totalDuration then
      let nextTarget := qadd currentPos targetChunkDuration
      if nextTarget ≥ totalDuration then [totalDuration]
      else
        let bestCut := firstSilenceAfter silenceStarts nextTarget
        let cutPoint := if bestCut ≠ -1 then bestCut else nextTarget
        cutPoint :: cutPointsLoop totalDuration targetChunkDuration silenceStarts fuel cutPoint
    else []

def cutPoints (totalDuration targetChunkDuration : ℚ) (silenceStarts : List ℚ) : List ℚ :=
  cutPointsLoop totalDuration targetChunkDuration silenceStarts
    (ratTruncNat (qdiv totalDuration targetChunkDuration) + 1) 0

/-- Step 4: the `(last_start, end_time)` chunk intervals, `last_start`
starting at `start`. -/
def intervalsFrom (start : ℚ) : List ℚ → List (ℚ × ℚ)
  | [] => []
  | e :: rest => (start, e) :: intervalsFrom e rest

def chunkIntervalsOf (cuts : List ℚ) : List (ℚ × ℚ) := intervalsFrom 0 cuts

/-- Modelled from the spec (§4.1 `plan_cuts`): "from `pos=0`, repeatedly set
`next = pos + target_duration`; if `next ≥ total_duration`, append
`total_duration` and stop; else pick the first silence candidate `> next` as
the cut point (snap to `next` if none exists); set `pos` = cut point;
repeat" — the repetition being the planner loop, which runs while the
position is still ahead of the end of the file. -/
def specNextCut (silenceCandidates : List ℚ) (next : ℚ) : ℚ :=
  match silenceCandidates.find? (fun s => decide (next < s)) with
  | some s => s
  | Option.none => next

/-- Modelled from the spec (§4.1 `plan_cuts`): the recurrence of the claimed
cut-planning algorithm, as a relation between a current position and the list
of cut points planned from it. -/
inductive CutPlanSpec (total target : ℚ) (sil : List ℚ) : ℚ → List ℚ → Prop
  | stop (pos : ℚ) : total ≤ pos → CutPlanSpec total target sil pos []
  | last (pos : ℚ) : pos < total → total ≤ pos + target →
      CutPlanSpec total target sil pos [total]
  | cut (pos : ℚ) (l : List ℚ) : pos < total → pos + target < total →
      CutPlanSpec total target sil (specNextCut sil (pos + target)) l →
      CutPlanSpec total target sil pos (specNextCut sil (pos + target) :: l)

/-! ## File metadata cache (`src/core/cache.py`, class `FileCache`, and
`src/core/transcription.py`, `_get_audio_duration_ffmpeg`, lines 339–371)

The filesystem and the out-of-process `ffprobe` are an environment record;
the cache dict is a lookup function. -/

structure AudioFileInfo where
  filepath : List Char
  duration : ℚ
  size : Nat
  mtime : ℚ
  cachedAt : ℚ
  deriving DecidableEq

structure FileStat where
  size : Nat
  mtime : ℚ
  deriving DecidableEq

structure FsEnv where
  pathExists : List Char → Bool
  stat : List Char → FileStat
  probeDuration : List Char → Option ℚ
  now : ℚ

abbrev FileCacheState := List Char → Option AudioFileInfo

/-- `FileCache.get_duration`: returns the cached duration only when the file
exists, an entry is present, the size matches exactly and the cached mtime is
within 1.0 second of the current mtime. -/
def getDuration (fs : FsEnv) (cache : FileCacheState) (filepath : List Char) : Option ℚ :=
  if !fs.pathExists filepath then Option.none
  else
    match cache filepath with
    | some cacheInfo =>
      if cacheInfo.size = (fs.stat filepath).size ∧
          qabs (qsub cacheInfo.mtime (fs.stat filepath).mtime) < 1 then
        some cacheInfo.duration
      else Option.none
    | Option.none => Option.none

/-- `FileCache.set_duration` (the `save_cache` disk write has no effect on
any modelled value). -/
def setDuration (fs : FsEnv) (cache : FileCacheState) (filepath : List Char) (duration : ℚ) :
    FileCacheState :=
  if !fs.pathExists filepath then cache
  else fun p =>
    if p = filepath then
      some ⟨filepath, duration, (fs.stat filepath).size, (fs.stat filepath).mtime, fs.now⟩
    else cache p

/-- `TranscriptionThread._get_audio_duration_ffmpeg`: cache first, then
`ffprobe` (`0.0` on failure).  The returned `Nat` counts the `ffprobe`
invocations, making "without re-probing" an explicit output. -/
def getAudioDurationFfmpeg (fs : FsEnv) (cache : FileCacheState) (filepath : List Char) :
    ℚ × FileCacheState × Nat :=
  if !fs.pathExists filepath then (0, cache, 0)
  else
    match getDuration fs cache filepath with
    | some cachedDuration => (cachedDuration, cache, 0)
    | Option.none =>
      match fs.probeDuration filepath with
      | some duration => (duration, setDuration fs cache filepath duration, 1)
      | Option.none => (0, cache, 1)

/-! ## Batch processing and report merging
(`src/core/batch_transcription.py`, `_process_files_in_batches` lines
195–257, `_process_files_sequential` lines 259–322, `_generate_final_report`
lines 484–551)

`_process_file_with_batched_pipeline` always returns a result dict carrying
the `file_path` it was called with; the `ThreadPoolExecutor`/`as_completed`
loop appends those dicts in completion order, modelled by the `arrive`
reordering of each batch.  The cancellation flag is `True` throughout a
completed run and is omitted. -/

structure PerFileOutcome where
  transcription : List Char
  success : Bool
  deriving DecidableEq

structure FileResult where
  filePath : List Char
  transcription : List Char
  success : Bool
  deriving DecidableEq

structure BatchProcEnv where
  processFile : List Char → PerFileOutcome
  arrive : Nat → List (List Char) → List (List Char)

/-- One `_process_file_with_batched_pipeline` (or sequential `transcribe`)
call: the result dict records the argument path. -/
def processOne (env : BatchProcEnv) (f : List Char) : FileResult :=
  ⟨f, (env.processFile f).transcription, (env.processFile f).success⟩

/-- `range(0, len(files), batchSize)` slicing, fuel-structured. -/
def chunksOfAux (bs : Nat) : Nat → List (List Char) → List (List (List Char))
  | 0, _ => []
  | _, [] => []
  | fuel + 1, files => files.take bs :: chunksOfAux bs fuel (files.drop bs)

def chunksOf (bs : Nat) (files : List (List Char)) : List (List (List Char)) :=
  chunksOfAux bs files.length files

/-- `_process_files_sequential`: input order. -/
def processFilesSequential (env : BatchProcEnv) (files : List (List Char)) : List FileResult :=
  files.map (processOne env)

/-- `_process_files_in_batches`: batched path for more than one file (results
appended in `as_completed` order within each batch), sequential otherwise; a
zero batch size makes `range` raise, which the `except` clause turns into the
sequential fallback. -/
def processFilesInBatches (env : BatchProcEnv) (useBatchedInference : Bool)
    (files : List (List Char)) (batchSize : Nat) : List FileResult :=
  if useBatchedInference ∧ files.length > 1 then
    if batchSize = 0 then processFilesSequential env files
    else
      ((chunksOf batchSize files).enum.map fun ib =>
        (env.arrive ib.1 ib.2).map (processOne env)).flatten
  else processFilesSequential env files

/-- The transcription section of `_generate_final_report` (lines 488–499):
one `--- filename ---` block per successful result with nonempty stripped
text, in results order, joined by blank lines. -/
def generateFinalReportTranscripts (results : List FileResult) : List Char :=
  let fullTranscriptions := (results.filter (·.success)).filterMap fun r =>
    let transcription := pyStrip r.transcription
    if transcription.isEmpty then Option.none
    else some ("--- ".data ++ basename r.filePath ++ " ---\n".data ++ transcription)
  joinWith "\n\n".data fullTranscriptions

/-! ## Recovery manager (`src/core/recovery_manager.py`, class `CoreRecoveryManager`)

The settings dicts the strategies build are association lists over the fixed
key set the code mentions; Python `dict.update` rewrites existing keys in
place and appends new ones.  The injected `transcribe_function`, the
`faster_whisper` tiny model of `_strategy_tiny_model`, `ffprobe`/`ffmpeg`,
`os.path.getsize` and `time.strftime` form the environment.  Statistics
updates (`self.stats`) and `print` calls have no effect on the returned
`RecoveryResult` and are omitted; so are the wall-clock `processing_time`
fields. -/

inductive RecoveryStrategy where
  | conservativeSettings
  | smallerChunks
  | tinyModel
  | emergencyFallback
  deriving DecidableEq

/-- Values of the settings dicts. -/
inductive SVal where
  | int (n : Int)
  | rat (q : ℚ)
  | bool (b : Bool)
  | str (s : List Char)
  | pynone
  deriving DecidableEq

/-- Keys the recovery strategies read or write. -/
inductive SKey where
  | beamSize
  | bestOf
  | temperature
  | conditionOnPreviousText
  | patience
  | noSpeechThreshold
  | language
  | vadFilter
  deriving DecidableEq

abbrev Settings := List (SKey × SVal)

/-- One key of a Python `dict.update`: overwrite in place or append. -/
def setKey (d : Settings) (kv : SKey × SVal) : Settings :=
  if d.any (fun p => p.1 = kv.1) then d.map (fun p => if p.1 = kv.1 then kv else p)
  else d ++ [kv]

def updateSettings (d : Settings) (kvs : List (SKey × SVal)) : Settings :=
  kvs.foldl setKey d

/-- Python `dict.get(k)` (`None` when missing). -/
def getKey (d : Settings) (k : SKey) : Option SVal :=
  (d.find? (fun p => p.1 = k)).map (·.2)

structure RecoveryEnv where
  transcribe : List Char → Settings → Except (List Char) (List Char)
  probeDuration : List Char → Option ℚ
  fileSize : List Char → Option Nat
  chunkPath : List Char → Nat → Option (List Char)
  tinyTranscribe : List Char → Settings → Except (List Char) (List Char)
  timestamp : List Char

/-- `CoreRecoveryManager._get_audio_duration`: `ffprobe`, falling back to a
file-size estimate (`size / 4000`, floored at 10 s); `os.path.getsize` itself
may raise. -/
def rmGetAudioDuration (env : RecoveryEnv) (audioPath : List Char) : Except (List Char) ℚ :=
  match env.probeDuration audioPath with
  | some duration => Except.ok duration
  | Option.none =>
    match env.fileSize audioPath with
    | some fileSz => Except.ok (qmax (qdiv (fileSz : ℚ) 4000) 10)
    | Option.none => Except.error "OSError".data

/-- `CoreRecoveryManager._split_audio`: chunk count from the probed duration
(`int(d / cd)` plus one for a remainder), then one `ffmpeg` extraction per
index, failures skipped. -/
def rmSplitAudio (env : RecoveryEnv) (audioPath : List Char) (chunkDuration : ℚ) :
    Except (List Char) (List (List Char)) := do
  let duration ← rmGetAudioDuration env audioPath
  let whole := ratTruncNat (qdiv duration chunkDuration)
  let chunkCount := whole + (if qsub duration (qmul chunkDuration (whole : ℚ)) > 0 then 1 else 0)
  Except.ok ((List.range chunkCount).filterMap (env.chunkPath audioPath))

/-- The `conservative_settings.update({...})` of `_strategy_conservative_settings`. -/
def conservativeUpdate : List (SKey × SVal) :=
  [(SKey.beamSize, SVal.int 1), (SKey.bestOf, SVal.int 1),
   (SKey.temperature, SVal.rat (Rat.divInt 1 10)),
   (SKey.conditionOnPreviousText, SVal.bool false),
   (SKey.patience, SVal.rat 1),
   (SKey.noSpeechThreshold, SVal.rat (Rat.divInt 6 10))]

def strategyConservativeSettings (env : RecoveryEnv) (audioPath problematicText : List Char)
    (originalSettings : Settings) : Except (List Char) (List Char) :=
  env.transcribe audioPath (updateSettings originalSettings conservativeUpdate)

/-- The narrower update used inside `_strategy_smaller_chunks`. -/
def smallerChunksUpdate : List (SKey × SVal) :=
  [(SKey.beamSize, SVal.int 1), (SKey.temperature, SVal.rat (Rat.divInt 1 10)),
   (SKey.conditionOnPreviousText, SVal.bool false)]

/-- `_strategy_smaller_chunks` (`target_chunk_duration = 10`): short units
delegate to the conservative strategy; longer ones are split, each chunk
transcribed (exceptions propagate), nonempty stripped chunk texts joined by
spaces. -/
def strategySmallerChunks (env : RecoveryEnv) (audioPath problematicText : List Char)
    (originalSettings : Settings) : Except (List Char) (List Char) := do
  let duration ← rmGetAudioDuration env audioPath
  if duration ≤ 10 then
    strategyConservativeSettings env audioPath problematicText originalSettings
  else do
    let chunks ← rmSplitAudio env audioPath 10
    let conservativeSettings := updateSettings originalSettings smallerChunksUpdate
    let chunkResults ← chunks.mapM (fun chunkPath => env.transcribe chunkPath conservativeSettings)
    let transcriptionParts := chunkResults.filterMap fun chunkResult =>
      if chunkResult.isEmpty ∨ (pyStrip chunkResult).isEmpty then Option.none
      else some (pyStrip chunkResult)
    Except.ok (joinWith [' '] transcriptionParts)

/-- The tiny-model settings dict of `_strategy_tiny_model` (with `None`
values removed). -/
def tinySettings (originalSettings : Settings) : Settings :=
  [(SKey.beamSize, SVal.int 1), (SKey.temperature, SVal.rat 0),
   (SKey.conditionOnPreviousText, SVal.bool false)] ++
  (match getKey originalSettings SKey.language with
   | some SVal.pynone => []
   | some v => [(SKey.language, v)]
   | Option.none => []) ++
  (match getKey originalSettings SKey.vadFilter with
   | some SVal.pynone => []
   | some v => [(SKey.vadFilter, v)]
   | Option.none => [(SKey.vadFilter, SVal.bool true)])

/-- `_strategy_tiny_model`: builds and runs a fresh tiny model; any failure is
re-raised with the `Tiny model strategy failed:` prefix. -/
def strategyTinyModel (env : RecoveryEnv) (audioPath problematicText : List Char)
    (originalSettings : Settings) : Except (List Char) (List Char) :=
  match env.tinyTranscribe audioPath (tinySettings originalSettings) with
  | Except.ok resultText => Except.ok resultText
  | Except.error e => Except.error ("Tiny model strategy failed: ".data ++ e)

/-- `_strategy_emergency_fallback`: no engine call; formats a placeholder from
the probed duration (the probe itself may raise through `getsize`). -/
def strategyEmergencyFallback (env : RecoveryEnv) (audioPath problematicText : List Char)
    (originalSettings : Settings) : Except (List Char) (List Char) := do
  let duration ← rmGetAudioDuration env audioPath
  Except.ok ("[Áudio de ".data ++ fmt1 duration ++
    "s - Transcrição não disponível devido a problemas técnicos]".data)

/-- `_generate_emergency_text` (`audio_duration or self._get_audio_duration(...)`:
`None` and the falsy `0.0` both trigger the probe). -/
def generateEmergencyText (env : RecoveryEnv) (audioPath : List Char)
    (audioDuration : Option ℚ) : Except (List Char) (List Char) := do
  let duration ← match audioDuration with
    | some d => if d = 0 then rmGetAudioDuration env audioPath else Except.ok d
    | Option.none => rmGetAudioDuration env audioPath
  Except.ok ("[ERRO DE TRANSCRIÇÃO - ".data ++ env.timestamp ++ "]\n".data ++
    "Áudio: ".data ++ basename audioPath ++ "\n".data ++
    "Duração: ".data ++ fmt1 duration ++ "s\n".data ++
    "Status: Todas as estratégias de recuperação falharam\n".data ++
    "Recomendação: Verificar qualidade do áudio ou tentar transcrição manual".data)

structure RecoveryAttempt where
  strategy : RecoveryStrategy
  success : Bool
  resultText : List Char
  error : Option (List Char) := Option.none
  deriving DecidableEq

abbrev StrategyFn :=
  RecoveryEnv → List Char → List Char → Settings → Except (List Char) (List Char)

/-- `CoreRecoveryManager._execute_strategy`: run one strategy; a nonempty
result is re-checked by the loop detector, exceptions and loopy or empty
results become failed attempts. -/
def executeStrategy (env : RecoveryEnv) (strategyName : RecoveryStrategy) (f : StrategyFn)
    (audioPath problematicText : List Char) (originalSettings : Settings)
    (audioDuration : Option ℚ) : RecoveryAttempt :=
  match f env audioPath problematicText originalSettings with
  | Except.error e => ⟨strategyName, false, [], some e⟩
  | Except.ok resultText =>
    if resultText.isEmpty ∨ (pyStrip resultText).length = 0 then
      ⟨strategyName, false, [], some "Empty transcription result".data⟩
    else
      let loopCheck := detect defaultDetectorParams resultText audioDuration
      if !loopCheck.hasLoop then ⟨strategyName, true, resultText, Option.none⟩
      else ⟨strategyName, false, resultText, some "Loop still detected in result".data⟩

/-- `self.strategies` (constructor, lines 96–101): the ladder order. -/
def strategies : List (RecoveryStrategy × StrategyFn) :=
  [(RecoveryStrategy.conservativeSettings, strategyConservativeSettings),
   (RecoveryStrategy.smallerChunks, strategySmallerChunks),
   (RecoveryStrategy.tinyModel, strategyTinyModel),
   (RecoveryStrategy.emergencyFallback, strategyEmergencyFallback)]

structure RecoveryResult where
  success : Bool
  text : List Char
  strategyUsed : RecoveryStrategy
  attemptsMade : Nat
  qualityScore : ℚ
  errorMessage : Option (List Char) := Option.none
  originalIssue : Option (List Char) := Option.none
  deriving DecidableEq

/-- The `for i, strategy_func in enumerate(self.strategies)` loop of
`recover_transcription`, carrying `recovery_log`, `best_result` and
`best_quality`; `break` on the first attempt of acceptable quality. -/
def recoverLoop (env : RecoveryEnv) (audioPath problematicText : List Char)
    (originalSettings : Settings) (audioDuration : Option ℚ) :
    List (RecoveryStrategy × StrategyFn) → List RecoveryAttempt →
    Option RecoveryAttempt → ℚ →
    List RecoveryAttempt × Option RecoveryAttempt × ℚ
  | [], recoveryLog, bestResult, bestQuality => (recoveryLog, bestResult, bestQuality)
  | (strategyName, f) :: rest, recoveryLog, bestResult, bestQuality =>
    let attempt :=
      executeStrategy env strategyName f audioPath problematicText originalSettings audioDuration
    let recoveryLog := recoveryLog ++ [attempt]
    if attempt.success then
      let qualityScore := validate attempt.resultText audioDuration
      let best :=
        if qualityScore > bestQuality then (some attempt, qualityScore)
        else (bestResult, bestQuality)
      if isAcceptableQuality attempt.resultText audioDuration then (recoveryLog, best.1, best.2)
      else
        recoverLoop env audioPath problematicText originalSettings audioDuration rest
          recoveryLog best.1 best.2
    else
      recoverLoop env audioPath problematicText originalSettings audioDuration rest
        recoveryLog bestResult bestQuality

/-- `CoreRecoveryManager.recover_transcription` (lines 103–213). -/
def recoverTranscription (env : RecoveryEnv) (audioPath problematicText : List Char)
    (originalSettings : Settings) (audioDuration : Option ℚ) :
    Except (List Char) RecoveryResult :=
  let detectionResult := detect defaultDetectorParams problematicText audioDuration
  let problemType :=
    if detectionResult.hasLoop then detectionResult.loopType else "quality_issue".data
  let final :=
    recoverLoop env audioPath problematicText originalSettings audioDuration strategies
      [] Option.none 0
  match final.2.1 with
  | some bestResult =>
    Except.ok ⟨true, bestResult.resultText, bestResult.strategy, final.1.length, final.2.2,
      Option.none, some problemType⟩
  | Option.none => do
    let emergencyText ← generateEmergencyText env audioPath audioDuration
    Except.ok ⟨false, emergencyText, RecoveryStrategy.emergencyFallback, final.1.length, 0,
      some "All recovery strategies failed".data, some problemType⟩

/-- Declarative view of the executed prefix of the attempt ladder: every
strategy at most once, in order, stopping after the first successful attempt
of acceptable quality. -/
def takeUntilAccept (audioDuration : Option ℚ) : List RecoveryAttempt → List RecoveryAttempt
  | [] => []
  | a :: rest =>
    if a.success && isAcceptableQuality a.resultText audioDuration then [a]
    else a :: takeUntilAccept audioDuration rest

/-- The would-be attempt of every rung of the ladder (the pure model lets the
later rungs be evaluated even when the Python loop stops early). -/
def allAttempts (env : RecoveryEnv) (audioPath problematicText : List Char)
    (originalSettings : Settings) (audioDuration : Option ℚ) : List RecoveryAttempt :=
  strategies.map fun s =>
    executeStrategy env s.1 s.2 audioPath problematicText originalSettings audioDuration

/-- The `best_result` / `best_quality` update of one loop iteration, used to
state what the accumulated best is. -/
def bestStep (audioDuration : Option ℚ) (acc : Option RecoveryAttempt × ℚ)
    (a : RecoveryAttempt) : Option RecoveryAttempt × ℚ :=
  if a.success then
    let q := validate a.resultText audioDuration
    if q > acc.2 then (some a, q) else acc
  else acc

/-- The attempts the Python loop actually executes: the ladder prefix up to
and including the first successful attempt of acceptable quality. -/
def executedAttempts (env : RecoveryEnv) (audioPath problematicText : List Char)
    (originalSettings : Settings) (audioDuration : Option ℚ) : List RecoveryAttempt :=
  takeUntilAccept audioDuration
    (allAttempts env audioPath problematicText originalSettings audioDuration)

/-- Decidable equality for `Except` results (not provided by core). -/
instance {ε α : Type} [DecidableEq ε] [DecidableEq α] : DecidableEq (Except ε α) :=
  fun x y =>
    match x, y with
    | Except.ok a, Except.ok b =>
      if h : a = b then isTrue (by rw [h]) else isFalse (fun hh => h (Except.ok.inj hh))
    | Except.error a, Except.error b =>
      if h : a = b then isTrue (by rw [h]) else isFalse (fun hh => h (Except.error.inj hh))
    | Except.ok _, Except.error _ => isFalse Except.noConfusion
    | Except.error _, Except.ok _ => isFalse Except.noConfusion

/-! Concrete scenario environments, used by counterexamples and witnesses. -/

/-- A recovery session in which the injected engine always returns the
3-character text `ok!` (too short to score any quality), the tiny model fails
to build, and both `ffprobe` and `os.path.getsize` fail (the file has
vanished), so every strategy after the first raises. -/
def scenarioShortEnv : RecoveryEnv where
  transcribe := fun _ _ => Except.ok "ok!".data
  probeDuration := fun _ => Option.none
  fileSize := fun _ => Option.none
  chunkPath := fun _ _ => Option.none
  tinyTranscribe := fun _ _ => Except.error "model creation failed".data
  timestamp := "12:00:00".data

def scenarioShortRun : Except (List Char) RecoveryResult :=
  recoverTranscription scenarioShortEnv "audio.wav".data "xx".data [] (some 12)

def scenarioShortLog : List RecoveryAttempt :=
  (recoverLoop scenarioShortEnv "audio.wav".data "xx".data [] (some 12) strategies
    [] Option.none 0).1

/-- The result `scenarioShortRun` computes to (checked by `decide` in the
theorems below). -/
def scenarioShortResult : RecoveryResult :=
  ⟨false,
   "[ERRO DE TRANSCRIÇÃO - 12:00:00]\nÁudio: audio.wav\nDuração: 12.0s\n".data ++
    "Status: Todas as estratégias de recuperação falharam\n".data ++
    "Recomendação: Verificar qualidade do áudio ou tentar transcrição manual".data,
   RecoveryStrategy.emergencyFallback, 4, 0,
   some "All recovery strategies failed".data, some "quality_issue".data⟩

/-- A recovery session against an always-failing engine: every transcription
call (injected engine and tiny model alike) raises, while `ffprobe` still
reports an 8-second file. -/
def scenarioFailEnv : RecoveryEnv where
  transcribe := fun _ _ => Except.error "engine failure".data
  probeDuration := fun _ => some 8
  fileSize := fun _ => Option.none
  chunkPath := fun _ _ => Option.none
  tinyTranscribe := fun _ _ => Except.error "engine failure".data
  timestamp := "12:00:00".data

def scenarioFailRun : Except (List Char) RecoveryResult :=
  recoverTranscription scenarioFailEnv "audio.wav".data "xx".data [] Option.none

def scenarioFailPlaceholder : List Char :=
  "[Áudio de 8.0s - Transcrição não disponível devido a problemas técnicos]".data

/-- The result `scenarioFailRun` computes to (checked by `decide` in the
theorems below). -/
def scenarioFailResult : RecoveryResult :=
  ⟨true, scenarioFailPlaceholder, RecoveryStrategy.emergencyFallback, 4, Rat.divInt 47 50,
   Option.none, some "quality_issue".data⟩

/-- A two-file batch whose second transcription completes first. -/
def scenarioSwapEnv : BatchProcEnv where
  processFile := fun f => ⟨f ++ " falado".data, true⟩
  arrive := fun _ batch => batch.reverse

def scenarioSwapFiles : List (List Char) := ["a.wav".data, "b.wav".data]

/-- A cache holding a 42-second duration recorded at size 10, mtime 100.0,
queried while the file on disk reports the same size but mtime 100.5. -/
def scenarioDriftCache : FileCacheState := fun p =>
  if p = "a.wav".data then some ⟨"a.wav".data, 42, 10, 100, 0⟩ else Option.none

def scenarioDriftFs : FsEnv where
  pathExists := fun _ => true
  stat := fun _ => ⟨10, Rat.divInt 201 2⟩
  probeDuration := fun _ => some 7
  now := 0

/-! The kernel-computable rational wrappers agree with the standard
operations. -/

theorem qadd_eq (a b : ℚ) : qadd a b = a + b := by
  rw [qadd, Rat.add_def', Rat.mkRat_eq_divInt, Int.natCast_mul]

theorem qsub_eq (a b : ℚ) : qsub a b = a - b := by
  rw [qsub, Rat.sub_def', Rat.mkRat_eq_divInt, Int.natCast_mul]

theorem qmul_eq (a b : ℚ) : qmul a b = a * b := by
  rw [qmul, Rat.mul_def, Rat.normalize_eq_mkRat, Rat.mkRat_eq_divInt, Int.natCast_mul]

theorem qdiv_eq (a b : ℚ) : qdiv a b = a / b := (Rat.div_def' a b).symm

theorem qneg_eq (a : ℚ) : qneg a = -a := by
  rw [qneg, ← Rat.neg_divInt, Rat.num_divInt_den]

theorem qabs_eq (a : ℚ) : qabs a = |a| := by
  rw [qabs]
  split
  · rw [qneg_eq, abs_of_neg (by assumption)]
  · rw [abs_of_nonneg (le_of_not_lt (by assumption))]

theorem qmax_eq (a b : ℚ) : qmax a b = max a b := (max_def a b).symm

theorem qmin_eq (a b : ℚ) : qmin a b = min a b := by
  rw [qmin, min_def]
  rcases le_total a b with h | h
  · rcases eq_or_lt_of_le h with rfl | hlt
    · simp
    · rw [if_pos h, if_neg (not_le.mpr hlt)]
  · rw [if_pos h]
    rcases eq_or_lt_of_le h with rfl | hlt
    · simp
    · rw [if_neg (not_le.mpr hlt)]

/-! ### Claim C10 — manual batch size is used unchanged -/

/-- C10: when automatic batch sizing is disabled, `_determine_optimal_batch_size`
returns the manually configured batch size unchanged — no hardware tiers, no
cap at the file count; in particular a manual 50 with 3 files stays 50. -/
theorem claim10_manual_batch_size_passthrough :
    (∀ (batchSize : Nat) (memoryGb : ℚ) (cores fileCount : Nat),
      determineOptimalBatchSize false batchSize memoryGb cores fileCount = batchSize) ∧
    determineOptimalBatchSize false 50 16 8 3 = 50 ∧ 3 < 50 :=
  ⟨fun _ _ _ _ => rfl, rfl, by decide⟩

/-! ### Claim C3 — batch-size heuristic monotonicity

The heuristic is monotone in cores and capped by the file count, but it is
not monotone in memory for small core counts: with 1 physical core, 7 GB
falls in the `else` tier (batch 2) while 8 GB falls in the `≥8GB` tier
(`min(4, 1 // 2) = 0`). -/

/-- C3 counterexample: for fixed cores = 1 and file_count = 16, raising
memory from 7 GB to 8 GB lowers the computed batch size from 2 to 0, so the
computation is not monotonically non-decreasing in memory_gb. -/
theorem claim3_counterexample :
    (7 : ℚ) ≤ 8 ∧
    determineOptimalBatchSize true 8 7 1 16 = 2 ∧
    determineOptimalBatchSize true 8 8 1 16 = 0 ∧
    ¬ determineOptimalBatchSize true 8 7 1 16 ≤ determineOptimalBatchSize true 8 8 1 16 := by
  decide

/-- C3 (amended): for fixed file_count the automatic batch size is
monotonically non-decreasing in cores for fixed memory_gb, is always at most
file_count, and is monotonically non-decreasing in memory_gb for fixed
cores whenever cores ≥ 4 (for 1–3 cores a memory increase across the 8 GB
boundary can decrease it). -/
theorem claim3_batch_size_monotonicity (batchSize : Nat) :
    (∀ (memoryGb : ℚ) (cores fileCount : Nat),
      determineOptimalBatchSize true batchSize memoryGb cores fileCount ≤ fileCount) ∧
    (∀ (memoryGb : ℚ) (c₁ c₂ fileCount : Nat), c₁ ≤ c₂ →
      determineOptimalBatchSize true batchSize memoryGb c₁ fileCount ≤
        determineOptimalBatchSize true batchSize memoryGb c₂ fileCount) ∧
    (∀ (m₁ m₂ : ℚ) (cores fileCount : Nat), 4 ≤ cores → m₁ ≤ m₂ →
      determineOptimalBatchSize true batchSize m₁ cores fileCount ≤
        determineOptimalBatchSize true batchSize m₂ cores fileCount) := by
  refine ⟨fun m c f => ?_, fun m c₁ c₂ f hc => ?_, fun m₁ m₂ c f hc hm => ?_⟩
  · simp only [determineOptimalBatchSize, Bool.not_true, Bool.false_eq_true, if_false]
    exact min_le_right _ _
  · simp only [determineOptimalBatchSize, Bool.not_true, Bool.false_eq_true, if_false]
    split_ifs <;> omega
  · simp only [determineOptimalBatchSize, Bool.not_true, Bool.false_eq_true, if_false]
    split_ifs <;> first
      | omega
      | (exfalso; linarith)

/-- C3 witness: a concrete instantiation of the amended monotonicity
theorem. -/
theorem claim3_witness :
    determineOptimalBatchSize true 8 33 6 10 ≤ 10 ∧
    determineOptimalBatchSize true 8 20 4 10 ≤ determineOptimalBatchSize true 8 20 6 10 ∧
    determineOptimalBatchSize true 8 9 5 10 ≤ determineOptimalBatchSize true 8 33 5 10 :=
  ⟨(claim3_batch_size_monotonicity 8).1 33 6 10,
   (claim3_batch_size_monotonicity 8).2.1 20 4 6 10 (by decide),
   (claim3_batch_size_monotonicity 8).2.2 9 33 5 10 (by decide) (by decide)⟩

/-! ### Claim C8 — the batched-vs-sequential decision -/

/-- C8: `should_use_batch` is true only if the file count reaches the batch
threshold, the batched pipeline is importable, and memory is at least 8 GB;
whenever the conjunction fails, `run` takes the sequential path. -/
theorem claim8_should_batch (useBatchProcessing : Bool) (totalFiles batchThreshold : Nat)
    (pipelineImportable : Bool) (memoryGb : ℚ) :
    (shouldUseBatch useBatchProcessing totalFiles batchThreshold pipelineImportable
        memoryGb = true →
      batchThreshold ≤ totalFiles ∧ pipelineImportable = true ∧ (8 : ℚ) ≤ memoryGb) ∧
    (shouldUseBatch useBatchProcessing totalFiles batchThreshold pipelineImportable
        memoryGb = false →
      runProcessingPath useBatchProcessing totalFiles batchThreshold pipelineImportable
        memoryGb = RunPath.sequential) := by
  constructor
  · intro h
    simp only [shouldUseBatch, checkBatchSupport, Bool.and_eq_true, decide_eq_true_eq] at h
    exact ⟨h.1.2, h.2.1, h.2.2⟩
  · intro h
    rw [runProcessingPath, h]
    rfl

/-- C8 witness: with 5 files, threshold 3, an importable pipeline and 16 GB
the decision is positive and its three conjuncts hold; turning off the
`use_batch_processing` setting sends the run down the sequential path. -/
theorem claim8_witness :
    (3 ≤ 5 ∧ true = true ∧ (8 : ℚ) ≤ 16) ∧
    runProcessingPath false 5 3 true 16 = RunPath.sequential :=
  ⟨(claim8_should_batch true 5 3 true 16).1 (by decide),
   (claim8_should_batch false 5 3 true 16).2 (by decide)⟩

/-! ### Claim C9 — the too-short gate of the loop detector -/

/-- C9: for every text whose stripped length is below the configured minimum
text length, `detect` returns no loop, classification `too_short` and
confidence 0, regardless of content and of any supplied audio duration (the
later checks are never consulted). -/
theorem claim9_too_short_gate (p : DetectorParams) (text : List Char)
    (audioDuration : Option ℚ) (h : (pyStrip text).length < p.minTextLength) :
    detect p text audioDuration =
      { hasLoop := false, loopType := "too_short".data, confidence := 0 } := by
  unfold detect
  rw [if_pos (Or.inr h)]

/-- C9 witness: the 2-character text `hi` with the default minimum length 20
and a 60-second duration. -/
theorem claim9_witness :
    (pyStrip "hi".data).length < defaultDetectorParams.minTextLength ∧
    detect defaultDetectorParams "hi".data (some 60) =
      { hasLoop := false, loopType := "too_short".data, confidence := 0 } :=
  ⟨by decide, claim9_too_short_gate defaultDetectorParams "hi".data (some 60) (by decide)⟩

/-! ### Claim C2 — the silence-aware cut recurrence -/

theorem ratTruncInt_eq_floor (q : ℚ) : ratTruncInt q = ⌊q⌋ := by
  rw [Rat.floor_def]
  rfl

theorem specNextCut_le (sil : List ℚ) (next : ℚ) : next ≤ specNextCut sil next := by
  rcases hf : sil.find? (fun s => decide (next < s)) with _ | s
  · simp [specNextCut, hf]
  · have h0 : next < s := by simpa using List.find?_some hf
    simp only [specNextCut, hf]
    exact le_of_lt h0

theorem specNextCut_cases (sil : List ℚ) (next : ℚ) :
    specNextCut sil next ∈ sil ∨ specNextCut sil next = next := by
  rcases hf : sil.find? (fun s => decide (next < s)) with _ | s
  · simp [specNextCut, hf]
  · have hmem := List.mem_of_find?_eq_some hf
    simp only [specNextCut, hf]
    exact Or.inl hmem

/-- The `best_cut` scan with its `-1.0` sentinel computes the spec's "first
silence candidate strictly greater than `next`, else `next`", as long as the
target position is above the sentinel (cut positions always are: they sit
strictly above 0). -/
theorem firstSilenceAfter_eq_specNextCut (sil : List ℚ) (next : ℚ) (hnext : (-1 : ℚ) < next) :
    (if firstSilenceAfter sil next ≠ -1 then firstSilenceAfter sil next else next) =
      specNextCut sil next := by
  induction sil with
  | nil => simp [firstSilenceAfter, specNextCut]
  | cons s rest ih =>
    by_cases h : next < s
    · have hs : s ≠ -1 := ne_of_gt (lt_trans hnext h)
      simp [firstSilenceAfter, specNextCut, List.find?, h, hs]
    · have hh : ¬ s > next := h
      simp only [firstSilenceAfter, if_neg hh]
      rw [ih]
      unfold specNextCut
      simp [List.find?, h]

/-- The embedded `while` loop satisfies the spec recurrence whenever it is
given enough fuel to run to completion. -/
theorem cutPointsLoop_spec (total target : ℚ) (sil : List ℚ) (htarget : 0 < target) :
    ∀ (fuel : Nat) (pos : ℚ), 0 ≤ pos → total ≤ pos + fuel * target →
      CutPlanSpec total target sil pos (cutPointsLoop total target sil fuel pos) := by
  intro fuel
  induction fuel with
  | zero =>
    intro pos _ hfuel
    exact CutPlanSpec.stop pos (by simpa using hfuel)
  | succ n ih =>
    intro pos hpos hfuel
    simp only [cutPointsLoop, qadd_eq]
    by_cases hlt : pos < total
    · rw [if_pos hlt]
      by_cases hnext : pos + target ≥ total
      · rw [if_pos hnext]
        exact CutPlanSpec.last pos hlt hnext
      · rw [if_neg hnext]
        have hn1 : (-1 : ℚ) < pos + target := by linarith
        rw [firstSilenceAfter_eq_specNextCut sil (pos + target) hn1]
        have hcutpos : (0 : ℚ) ≤ specNextCut sil (pos + target) :=
          le_trans (by linarith) (specNextCut_le sil (pos + target))
        have hcutfuel : total ≤ specNextCut sil (pos + target) + n * target := by
          have h1 := specNextCut_le sil (pos + target)
          have h2 : total ≤ pos + (n + 1 : ℕ) * target := hfuel
          push_cast at h2
          linarith
        exact CutPlanSpec.cut pos _ hlt (lt_of_not_ge hnext) (ih _ hcutpos hcutfuel)
    · rw [if_neg hlt]
      exact CutPlanSpec.stop pos (le_of_not_lt hlt)

/-- The fuel `cutPoints` supplies is sufficient. -/
theorem cutPoints_fuel_ok (total target : ℚ) (htarget : 0 < target) :
    total ≤ 0 + ((ratTruncNat (qdiv total target) + 1 : ℕ) : ℚ) * target := by
  rw [zero_add]
  rcases le_or_lt total 0 with h | h
  · have hpos : (0 : ℚ) < ((ratTruncNat (qdiv total target) + 1 : ℕ) : ℚ) * target := by
      apply mul_pos _ htarget
      exact_mod_cast Nat.succ_pos _
    linarith
  · have hq : (0 : ℚ) ≤ total / target := le_of_lt (div_pos h htarget)
    have hfl : (0 : ℤ) ≤ ⌊total / target⌋ := Int.floor_nonneg.mpr hq
    have h1 : ratTruncNat (qdiv total target) = (⌊total / target⌋).toNat := by
      rw [ratTruncNat, ratTruncInt_eq_floor, qdiv_eq]
    have h3 : total / target < (⌊total / target⌋ : ℚ) + 1 := Int.lt_floor_add_one _
    have h5 : ((⌊total / target⌋.toNat : ℕ) : ℚ) = ((⌊total / target⌋ : ℤ) : ℚ) := by
      exact_mod_cast Int.toNat_of_nonneg hfl
    have h4 : total / target ≤ ((ratTruncNat (qdiv total target) + 1 : ℕ) : ℚ) := by
      rw [h1]
      push_cast
      rw [h5]
      linarith
    calc total = (total / target) * target := by field_simp
    _ ≤ ((ratTruncNat (qdiv total target) + 1 : ℕ) : ℚ) * target :=
        mul_le_mul_of_nonneg_right h4 (le_of_lt htarget)

/-- The planner output satisfies the spec recurrence from position 0; shared
by the C2 and C5 theorems. -/
theorem cutPoints_satisfies_spec (total target : ℚ) (sil : List ℚ) (htarget : 0 < target) :
    CutPlanSpec total target sil 0 (cutPoints total target sil) :=
  cutPointsLoop_spec total target sil htarget _ 0 le_rfl (cutPoints_fuel_ok total target htarget)

/-- C2: for positive durations and a positive target, the planner follows the
claimed recurrence — from `pos = 0`, set `next = pos + target`; if
`next ≥ total` append `total` and stop, else append the first silence
candidate strictly greater than `next` (or `next` itself when none exists)
and continue from that cut point while it is still inside the file — and on
duration 125 s, target 60 s, candidates `[58, 119, 200]` it plans exactly
`[119, 125]`. -/
theorem claim2_cut_planner (total target : ℚ) (sil : List ℚ) (htotal : 0 < total)
    (htarget : 0 < target) :
    CutPlanSpec total target sil 0 (cutPoints total target sil) ∧
    cutPoints 125 60 [58, 119, 200] = [119, 125] :=
  ⟨cutPoints_satisfies_spec total target sil htarget, by decide⟩

/-- C2 witness: the 125 s / 60 s instance itself. -/
theorem claim2_witness :
    ((0 : ℚ) < 125 ∧ (0 : ℚ) < 60) ∧
    CutPlanSpec 125 60 [58, 119, 200] 0 (cutPoints 125 60 [58, 119, 200]) ∧
    cutPoints 125 60 [58, 119, 200] = [119, 125] :=
  ⟨⟨by decide, by decide⟩, (claim2_cut_planner 125 60 [58, 119, 200] (by decide) (by decide)).1,
   (claim2_cut_planner 125 60 [58, 119, 200] (by decide) (by decide)).2⟩

/-! ### Claim C5 — segmentation-plan interval invariants -/

theorem chain_lt_getLast {a b : ℚ} :
    ∀ {l : List ℚ}, List.Chain (· < ·) a l → l.getLast? = some b → a < b := by
  intro l
  induction l generalizing a with
  | nil => intro _ h; simp at h
  | cons e rest ih =>
    intro hc hl
    rcases List.chain_cons.mp hc with ⟨hae, hrest⟩
    cases rest with
    | nil =>
      have : e = b := by simpa using hl
      exact this ▸ hae
    | cons f rest' =>
      have hl' : (f :: rest').getLast? = some b := by
        simpa [List.getLast?_cons_cons] using hl
      exact lt_trans hae (ih hrest hl')

/-- Structural invariants of any cut list satisfying the recurrence, given
that every silence candidate lies inside the file: the cut points strictly
increase, never pass the total duration, and (when the planning loop ran at
all) end exactly at the total duration. -/
theorem cutPlanSpec_invariants {total target : ℚ} {sil : List ℚ} (htarget : 0 < target)
    (hsil : ∀ s ∈ sil, s ≤ total) :
    ∀ {pos l}, CutPlanSpec total target sil pos l →
      List.Chain (· < ·) pos l ∧ (∀ x ∈ l, x ≤ total) ∧
      (pos < total → l.getLast? = some total) ∧ (total ≤ pos → l = []) := by
  intro pos l h
  induction h with
  | stop p hp =>
    exact ⟨List.Chain.nil, by simp, fun hlt => absurd hp (not_le.mpr hlt), fun _ => rfl⟩
  | last p hlt hn =>
    exact ⟨List.Chain.cons hlt List.Chain.nil, by simp [le_refl], fun _ => rfl,
      fun hc => absurd hc (not_le.mpr hlt)⟩
  | cut p l hp hn hrec ih =>
    have hcle : specNextCut sil (p + target) ≤ total := by
      rcases specNextCut_cases sil (p + target) with hmem | heq
      · exact hsil _ hmem
      · rw [heq]; linarith
    have hpc : p < specNextCut sil (p + target) :=
      lt_of_lt_of_le (by linarith) (specNextCut_le sil (p + target))
    obtain ⟨ihchain, ihmem, ihlast, ihnil⟩ := ih
    refine ⟨List.Chain.cons hpc ihchain, ?_, ?_, fun hc => absurd hc (not_le.mpr hp)⟩
    · intro x hx
      rcases List.mem_cons.mp hx with rfl | hx
      · exact hcle
      · exact ihmem x hx
    · intro _
      rcases lt_or_le (specNextCut sil (p + target)) total with hct | htc
      · have hlast' := ihlast hct
        cases l with
        | nil => simp at hlast'
        | cons y ys => rw [List.getLast?_cons_cons]; exact hlast'
      · rw [ihnil htc]
        simp [le_antisymm hcle htc]

theorem intervalsFrom_start_mem :
    ∀ (l : List ℚ) (a : ℚ), List.Chain (· < ·) a l →
      ∀ p ∈ intervalsFrom a l, a ≤ p.1 ∧ p.1 < p.2 := by
  intro l
  induction l with
  | nil => intro a _ p hp; simp [intervalsFrom] at hp
  | cons e rest ih =>
    intro a hc p hp
    rcases List.chain_cons.mp hc with ⟨hae, hrest⟩
    simp only [intervalsFrom] at hp
    rcases List.mem_cons.mp hp with rfl | hp
    · exact ⟨le_refl _, hae⟩
    · obtain ⟨h1, h2⟩ := ih e hrest p hp
      exact ⟨le_trans (le_of_lt hae) h1, h2⟩

theorem intervalsFrom_snd_mem :
    ∀ (l : List ℚ) (a : ℚ), ∀ p ∈ intervalsFrom a l, p.2 ∈ l := by
  intro l
  induction l with
  | nil => intro a p hp; simp [intervalsFrom] at hp
  | cons e rest ih =>
    intro a p hp
    simp only [intervalsFrom] at hp
    rcases List.mem_cons.mp hp with rfl | hp
    · exact List.mem_cons_self _ _
    · exact List.mem_cons_of_mem _ (ih e p hp)

theorem intervalsFrom_pairwise :
    ∀ (l : List ℚ) (a : ℚ), List.Chain (· < ·) a l →
      List.Pairwise (fun p q : ℚ × ℚ => p.2 ≤ q.1) (intervalsFrom a l) := by
  intro l
  induction l with
  | nil => intro a _; simp [intervalsFrom]
  | cons e rest ih =>
    intro a hc
    rcases List.chain_cons.mp hc with ⟨hae, hrest⟩
    simp only [intervalsFrom]
    refine List.Pairwise.cons ?_ (ih e hrest)
    intro q hq
    exact (intervalsFrom_start_mem rest e hrest q hq).1

theorem intervalsFrom_chain' :
    ∀ (l : List ℚ) (a : ℚ), List.Chain' (fun p q : ℚ × ℚ => p.2 = q.1) (intervalsFrom a l) := by
  intro l
  induction l with
  | nil => intro a; simp [intervalsFrom]
  | cons e rest ih =>
    intro a
    cases rest with
    | nil => simp [intervalsFrom]
    | cons f rest' =>
      have h := ih e
      simp only [intervalsFrom] at h ⊢
      exact List.chain'_cons.mpr ⟨rfl, h⟩

theorem intervalsFrom_cover :
    ∀ (l : List ℚ) (a b : ℚ), List.Chain (· < ·) a l → l.getLast? = some b →
      ∀ x : ℚ, (∃ p ∈ intervalsFrom a l, p.1 ≤ x ∧ x < p.2) ↔ (a ≤ x ∧ x < b) := by
  intro l
  induction l with
  | nil => intro a b _ hl; simp at hl
  | cons e rest ih =>
    intro a b hc hl x
    rcases List.chain_cons.mp hc with ⟨hae, hrest⟩
    cases rest with
    | nil =>
      have hb : e = b := by simpa using hl
      simp only [intervalsFrom, List.mem_singleton]
      constructor
      · rintro ⟨p, rfl, hpx⟩
        exact ⟨hpx.1, hb ▸ hpx.2⟩
      · intro hx
        exact ⟨(a, e), rfl, hx.1, hb.symm ▸ hx.2⟩
    | cons f rest' =>
      have hl' : (f :: rest').getLast? = some b := by
        simpa [List.getLast?_cons_cons] using hl
      have heb : e < b := chain_lt_getLast hrest hl'
      have ihe := ih e b hrest hl' x
      simp only [intervalsFrom] at ihe ⊢
      constructor
      · rintro ⟨p, hp, hpx⟩
        rcases List.mem_cons.mp hp with rfl | hp
        · exact ⟨hpx.1, lt_trans hpx.2 heb⟩
        · obtain ⟨hex, hxb⟩ := ihe.mp ⟨p, hp, hpx⟩
          exact ⟨le_trans (le_of_lt hae) hex, hxb⟩
      · rintro ⟨hax, hxb⟩
        by_cases hxe : x < e
        · exact ⟨(a, e), List.mem_cons_self _ _, hax, hxe⟩
        · obtain ⟨p, hp, hpx⟩ := ihe.mpr ⟨le_of_not_lt hxe, hxb⟩
          exact ⟨p, List.mem_cons_of_mem _ hp, hpx⟩

/-- C5: for every plan of the silence-aware splitter (positive duration and
target, every silence candidate inside the file), the chunk intervals exactly
cover `[0, total)` with no gaps, are pairwise non-overlapping, are contiguous
(each interval starts where the previous one ends), and no endpoint exceeds
the total duration. -/
theorem claim5_plan_intervals (total target : ℚ) (sil : List ℚ) (htotal : 0 < total)
    (htarget : 0 < target) (hsil : ∀ s ∈ sil, s ≤ total) :
    (∀ x : ℚ, (∃ p ∈ chunkIntervalsOf (cutPoints total target sil), p.1 ≤ x ∧ x < p.2) ↔
      (0 ≤ x ∧ x < total)) ∧
    List.Pairwise (fun p q : ℚ × ℚ => p.2 ≤ q.1)
      (chunkIntervalsOf (cutPoints total target sil)) ∧
    List.Chain' (fun p q : ℚ × ℚ => p.2 = q.1)
      (chunkIntervalsOf (cutPoints total target sil)) ∧
    (∀ p ∈ chunkIntervalsOf (cutPoints total target sil),
      0 ≤ p.1 ∧ p.1 < p.2 ∧ p.2 ≤ total) := by
  have hspec := cutPoints_satisfies_spec total target sil htarget
  obtain ⟨hchain, hmem, hlast, -⟩ := cutPlanSpec_invariants htarget hsil hspec
  refine ⟨intervalsFrom_cover _ 0 total hchain (hlast htotal),
    intervalsFrom_pairwise _ 0 hchain, intervalsFrom_chain' _ 0, ?_⟩
  intro p hp
  obtain ⟨h1, h2⟩ := intervalsFrom_start_mem _ 0 hchain p hp
  exact ⟨h1, h2, hmem _ (intervalsFrom_snd_mem _ 0 p hp)⟩

/-- C5 witness: the 125 s file with target 60 s and silence candidates 58 and
119. -/
theorem claim5_witness :
    ((0 : ℚ) < 125 ∧ (0 : ℚ) < 60 ∧ ∀ s ∈ [(58 : ℚ), 119], s ≤ 125) ∧
    ((∀ x : ℚ, (∃ p ∈ chunkIntervalsOf (cutPoints 125 60 [58, 119]), p.1 ≤ x ∧ x < p.2) ↔
      (0 ≤ x ∧ x < 125)) ∧
    List.Pairwise (fun p q : ℚ × ℚ => p.2 ≤ q.1)
      (chunkIntervalsOf (cutPoints 125 60 [58, 119])) ∧
    List.Chain' (fun p q : ℚ × ℚ => p.2 = q.1)
      (chunkIntervalsOf (cutPoints 125 60 [58, 119])) ∧
    (∀ p ∈ chunkIntervalsOf (cutPoints 125 60 [58, 119]),
      0 ≤ p.1 ∧ p.1 < p.2 ∧ p.2 ≤ 125)) :=
  ⟨⟨by decide, by decide, by decide⟩,
   claim5_plan_intervals 125 60 [58, 119] (by decide) (by decide) (by decide)⟩

/-! ### Claim C6 — duration-cache validity -/

/-- C6 counterexample: an entry stored at mtime 100.0, queried while the file
reports the same size but mtime 100.5 — the mtime has changed, yet
`get_duration` still returns the stale cached 42 s (the code tolerates mtime
drift below 1 second) and `_get_audio_duration_ffmpeg` does not re-probe. -/
theorem claim6_counterexample :
    (scenarioDriftFs.stat "a.wav".data).mtime ≠ (100 : ℚ) ∧
    scenarioDriftCache "a.wav".data = some ⟨"a.wav".data, 42, 10, 100, 0⟩ ∧
    (scenarioDriftFs.stat "a.wav".data).size = 10 ∧
    getDuration scenarioDriftFs scenarioDriftCache "a.wav".data = some 42 ∧
    (getAudioDurationFfmpeg scenarioDriftFs scenarioDriftCache "a.wav".data).2.2 = 0 := by
  decide

/-- C6 (amended): `get_duration` returns a cached duration exactly when the
file exists, an entry is present, the size is unchanged, and the stored mtime
is within 1.0 second of the current mtime — any size change or mtime drift of
at least one second invalidates the entry, while a sub-second mtime change
does not; and on a cache hit the ffprobe is not invoked. -/
theorem claim6_cache_validity (fs : FsEnv) (cache : FileCacheState) (filepath : List Char) :
    (∀ d : ℚ, getDuration fs cache filepath = some d ↔
      (fs.pathExists filepath = true ∧ ∃ info, cache filepath = some info ∧
        info.size = (fs.stat filepath).size ∧
        |info.mtime - (fs.stat filepath).mtime| < 1 ∧ d = info.duration)) ∧
    (∀ d : ℚ, getDuration fs cache filepath = some d →
      getAudioDurationFfmpeg fs cache filepath = (d, cache, 0)) := by
  constructor
  · intro d
    unfold getDuration
    cases hex : fs.pathExists filepath with
    | false => simp [hex]
    | true =>
      simp only [hex, Bool.not_true, Bool.false_eq_true, if_false]
      cases hc : cache filepath with
      | none => simp [hc]
      | some info =>
        dsimp only
        by_cases hcond : info.size = (fs.stat filepath).size ∧
            qabs (qsub info.mtime (fs.stat filepath).mtime) < 1
        · rw [if_pos hcond]
          rw [qabs_eq, qsub_eq] at hcond
          constructor
          · intro h
            exact ⟨trivial, info, rfl, hcond.1, hcond.2, (Option.some.inj h).symm⟩
          · rintro ⟨-, info', hinfo', _, _, rfl⟩
            rw [Option.some.inj hinfo']
        · rw [if_neg hcond]
          constructor
          · intro h
            exact absurd h (by simp)
          · rintro ⟨-, info', hinfo', hsz, hmt, rfl⟩
            have he : info' = info := (Option.some.inj hinfo').symm
            subst he
            exact absurd ⟨hsz, by rw [qabs_eq, qsub_eq]; exact hmt⟩ hcond
  · intro d h
    have hex : fs.pathExists filepath = true := by
      cases hex : fs.pathExists filepath with
      | true => rfl
      | false =>
        rw [getDuration, hex] at h
        simp at h
    unfold getAudioDurationFfmpeg
    rw [hex]
    simp [h]

/-- C6 witness: an unchanged file (size 10, identical mtime) is answered from
the cache with no probe call. -/
theorem claim6_witness :
    (getDuration (FsEnv.mk (fun _ => true) (fun _ => ⟨10, 100⟩) (fun _ => some 7) 0)
        (fun _ => some ⟨"a.wav".data, 42, 10, 100, 0⟩) "a.wav".data = some 42 ↔
      ((FsEnv.mk (fun _ => true) (fun _ => ⟨10, 100⟩) (fun _ => some 7) 0).pathExists
          "a.wav".data = true ∧
        ∃ info, (fun _ : List Char => some (AudioFileInfo.mk "a.wav".data 42 10 100 0))
            "a.wav".data = some info ∧
          info.size = 10 ∧ |info.mtime - (100 : ℚ)| < 1 ∧ (42 : ℚ) = info.duration)) ∧
    getAudioDurationFfmpeg (FsEnv.mk (fun _ => true) (fun _ => ⟨10, 100⟩) (fun _ => some 7) 0)
      (fun _ => some ⟨"a.wav".data, 42, 10, 100, 0⟩) "a.wav".data =
      (42, fun _ => some ⟨"a.wav".data, 42, 10, 100, 0⟩, 0) :=
  ⟨(claim6_cache_validity _ _ _).1 42,
   (claim6_cache_validity _ _ _).2 42 (by decide)⟩

/-! ### Claim C7 — merged-transcript ordering -/

/-- C7 counterexample: two files in one batch whose completions arrive in
reverse order; both results are successful, yet the merged transcript lists
`b.wav` before `a.wav`, not in input enumeration order. -/
theorem claim7_counterexample :
    List.Perm (scenarioSwapEnv.arrive 0 scenarioSwapFiles) scenarioSwapFiles ∧
    generateFinalReportTranscripts
        (processFilesInBatches scenarioSwapEnv true scenarioSwapFiles 2) =
      "--- b.wav ---\nb.wav falado\n\n--- a.wav ---\na.wav falado".data ∧
    generateFinalReportTranscripts
        (processFilesInBatches scenarioSwapEnv true scenarioSwapFiles 2) ≠
      generateFinalReportTranscripts (processFilesSequential scenarioSwapEnv scenarioSwapFiles) ∧
    generateFinalReportTranscripts (processFilesSequential scenarioSwapEnv scenarioSwapFiles) =
      "--- a.wav ---\na.wav falado\n\n--- b.wav ---\nb.wav falado".data := by
  decide

theorem chunksOfAux_flatten (bs : Nat) (hbs : 0 < bs) :
    ∀ (fuel : Nat) (files : List (List Char)), files.length ≤ fuel →
      (chunksOfAux bs fuel files).flatten = files := by
  intro fuel
  induction fuel with
  | zero =>
    intro files h
    rw [List.eq_nil_of_length_eq_zero (Nat.le_zero.mp h)]
    rfl
  | succ n ih =>
    intro files h
    cases files with
    | nil => rfl
    | cons f fs =>
      simp only [chunksOfAux, List.flatten_cons]
      rw [ih ((f :: fs).drop bs) (by
        simp only [List.length_drop, List.length_cons]
        simp only [List.length_cons] at h
        omega)]
      exact List.take_append_drop bs (f :: fs)

theorem chunksOf_flatten (bs : Nat) (hbs : 0 < bs) (files : List (List Char)) :
    (chunksOf bs files).flatten = files :=
  chunksOfAux_flatten bs hbs files.length files le_rfl

/-- Flattening batchwise-permuted batches permutes the flattened whole. -/
theorem flatten_perm_of_arrive (f : Nat → List (List Char) → List (List Char))
    (hf : ∀ i b, List.Perm (f i b) b) :
    ∀ (l : List (List (List Char))) (k : Nat),
      List.Perm ((List.enumFrom k l).map fun ib => f ib.1 ib.2).flatten l.flatten := by
  intro l
  induction l with
  | nil => intro k; simp
  | cons b rest ih =>
    intro k
    simp only [List.enumFrom, List.map_cons, List.flatten_cons]
    exact List.Perm.append (hf k b) (ih (k + 1))

/-- C7 (amended): the batched scheduler preserves per-file attribution and
loses and duplicates nothing — the collected results are a permutation of the
input list, each carrying the transcription of its own file — but the merged
report lists them in collection order (completion order inside each batch,
batches in input order): the final text equals the input-order text exactly
when every batch completes in submission order. -/
theorem claim7_order (env : BatchProcEnv) (useBatched : Bool) (files : List (List Char))
    (batchSize : Nat) (harr : ∀ i b, List.Perm (env.arrive i b) b) :
    List.Perm ((processFilesInBatches env useBatched files batchSize).map FileResult.filePath)
      files ∧
    (∀ r ∈ processFilesInBatches env useBatched files batchSize, r = processOne env r.filePath) ∧
    ((∀ i b, env.arrive i b = b) →
      processFilesInBatches env useBatched files batchSize = files.map (processOne env)) := by
  have hseqpaths : ∀ gs : List (List Char),
      (gs.map (processOne env)).map FileResult.filePath = gs := by
    intro gs
    rw [List.map_map]
    exact List.map_id'' (fun _ => rfl) gs
  unfold processFilesInBatches
  by_cases hcase : useBatched = true ∧ files.length > 1
  · rw [if_pos hcase]
    by_cases hbs : batchSize = 0
    · rw [if_pos hbs]
      exact ⟨by rw [processFilesSequential, hseqpaths],
        fun r hr => by
          obtain ⟨g, -, rfl⟩ := List.mem_map.mp hr
          rfl,
        fun _ => rfl⟩
    · rw [if_neg hbs]
      have hbs' : 0 < batchSize := Nat.pos_of_ne_zero hbs
      refine ⟨?_, ?_, ?_⟩
      · rw [List.map_flatten, List.map_map]
        have h1 : ((chunksOf batchSize files).enum.map
            (List.map FileResult.filePath ∘ fun ib : Nat × List (List Char) =>
              (env.arrive ib.1 ib.2).map (processOne env))) =
            (chunksOf batchSize files).enum.map fun ib => env.arrive ib.1 ib.2 :=
          List.map_congr_left fun ib _ => hseqpaths (env.arrive ib.1 ib.2)
        rw [h1]
        have h2 := flatten_perm_of_arrive env.arrive harr (chunksOf batchSize files) 0
        rw [chunksOf_flatten batchSize hbs' files] at h2
        exact h2
      · intro r hr
        obtain ⟨sub, hsub, hrsub⟩ := List.mem_flatten.mp hr
        obtain ⟨ib, -, rfl⟩ := List.mem_map.mp hsub
        obtain ⟨g, -, rfl⟩ := List.mem_map.mp hrsub
        rfl
      · intro hid
        have h1 : ((chunksOf batchSize files).enum.map fun ib =>
            (env.arrive ib.1 ib.2).map (processOne env)) =
            (chunksOf batchSize files).enum.map fun ib => ib.2.map (processOne env) :=
          List.map_congr_left fun ib _ => by rw [hid]
        have h2 : ((chunksOf batchSize files).enum.map fun ib => ib.2.map (processOne env)) =
            ((chunksOf batchSize files).enum.map Prod.snd).map
              (fun b => b.map (processOne env)) := by
          rw [List.map_map]
          rfl
        rw [h1, h2, List.enum_map_snd, ← List.map_flatten,
          chunksOf_flatten batchSize hbs' files]
  · rw [if_neg hcase]
    exact ⟨by rw [processFilesSequential, hseqpaths],
      fun r hr => by
        obtain ⟨g, -, rfl⟩ := List.mem_map.mp hr
        rfl,
      fun _ => rfl⟩

/-- C7 witness: the swapped two-file batch, whose arrival order is a
permutation of the batch. -/
theorem claim7_witness :
    List.Perm ((processFilesInBatches scenarioSwapEnv true scenarioSwapFiles 2).map
      FileResult.filePath) scenarioSwapFiles ∧
    (∀ r ∈ processFilesInBatches scenarioSwapEnv true scenarioSwapFiles 2,
      r = processOne scenarioSwapEnv r.filePath) ∧
    ((∀ i b, scenarioSwapEnv.arrive i b = b) →
      processFilesInBatches scenarioSwapEnv true scenarioSwapFiles 2 =
        scenarioSwapFiles.map (processOne scenarioSwapEnv)) :=
  claim7_order scenarioSwapEnv true scenarioSwapFiles 2 (fun _ b => List.reverse_perm b)

/-! ### Claims C1 and C4 — the recovery ladder

The loop of `recover_transcription` is characterised declaratively: it
appends to its log exactly the ladder prefix `takeUntilAccept` (each strategy
at most once, in order, stopping at the first successful attempt of
acceptable quality) and accumulates `best_result` / `best_quality` by folding
`bestStep` over that prefix. -/

theorem recoverLoop_eq (env : RecoveryEnv) (audioPath problematicText : List Char)
    (originalSettings : Settings) (audioDuration : Option ℚ) :
    ∀ (L : List (RecoveryStrategy × StrategyFn)) (recoveryLog : List RecoveryAttempt)
      (best : Option RecoveryAttempt) (bq : ℚ),
      recoverLoop env audioPath problematicText originalSettings audioDuration L
          recoveryLog best bq =
        (recoveryLog ++ takeUntilAccept audioDuration (L.map fun s =>
            executeStrategy env s.1 s.2 audioPath problematicText originalSettings
              audioDuration),
         (takeUntilAccept audioDuration (L.map fun s =>
            executeStrategy env s.1 s.2 audioPath problematicText originalSettings
              audioDuration)).foldl (bestStep audioDuration) (best, bq)) := by
  intro L
  induction L with
  | nil =>
    intro recoveryLog best bq
    simp [recoverLoop, takeUntilAccept]
  | cons s rest ih =>
    obtain ⟨strategyName, f⟩ := s
    intro recoveryLog best bq
    simp only [recoverLoop, List.map_cons, takeUntilAccept]
    by_cases hs : (executeStrategy env strategyName f audioPath problematicText
        originalSettings audioDuration).success = true
    · by_cases hacc : isAcceptableQuality (executeStrategy env strategyName f audioPath
          problematicText originalSettings audioDuration).resultText audioDuration = true
      · simp [hs, hacc, bestStep]
      · simp only [hs, hacc, Bool.and_false, Bool.false_eq_true, if_false, if_true, ih]
        simp [bestStep, hs, List.append_assoc]
    · have hs' : (executeStrategy env strategyName f audioPath problematicText
          originalSettings audioDuration).success = false := by
        cases h : (executeStrategy env strategyName f audioPath problematicText
            originalSettings audioDuration).success
        · rfl
        · exact absurd h hs
      simp only [hs', Bool.false_eq_true, if_false, Bool.false_and, ih]
      simp [bestStep, hs', List.append_assoc]

/-- Properties of folding the best-result update: the accumulator always
holds a successful attempt of positive quality (with the stored quality equal
to that attempt's validation score and maximal over the attempts seen), or
nothing while the quality stays 0. -/
theorem foldl_bestStep_spec (audioDuration : Option ℚ) :
    ∀ (l : List RecoveryAttempt) (best : Option RecoveryAttempt) (bq : ℚ),
      (∀ b, best = some b → b.success = true ∧ bq = validate b.resultText audioDuration ∧
        0 < bq) →
      (best = Option.none → bq = 0) →
      (∀ b, (l.foldl (bestStep audioDuration) (best, bq)).1 = some b →
        b.success = true ∧
        (l.foldl (bestStep audioDuration) (best, bq)).2 = validate b.resultText audioDuration ∧
        0 < (l.foldl (bestStep audioDuration) (best, bq)).2 ∧ (b ∈ l ∨ best = some b)) ∧
      ((l.foldl (bestStep audioDuration) (best, bq)).1 = Option.none →
        (l.foldl (bestStep audioDuration) (best, bq)).2 = 0 ∧ best = Option.none) ∧
      (∀ a ∈ l, a.success = true →
        validate a.resultText audioDuration ≤ (l.foldl (bestStep audioDuration) (best, bq)).2) ∧
      bq ≤ (l.foldl (bestStep audioDuration) (best, bq)).2 := by
  intro l
  induction l with
  | nil =>
    intro best bq h1 h2
    simp only [List.foldl_nil]
    exact ⟨fun b hb => ⟨(h1 b hb).1, (h1 b hb).2.1, (h1 b hb).2.2, Or.inr hb⟩,
      fun hb => ⟨h2 hb, hb⟩, fun a ha => absurd ha (by simp), le_refl bq⟩
  | cons a l ih =>
    intro best bq h1 h2
    simp only [List.foldl_cons]
    have hbq0 : 0 ≤ bq := by
      cases hbest : best with
      | none => rw [h2 hbest]
      | some b => exact le_of_lt (h1 b hbest).2.2
    by_cases hs : a.success = true
    · by_cases hq : validate a.resultText audioDuration > bq
      · have hstep : bestStep audioDuration (best, bq) a =
            (some a, validate a.resultText audioDuration) := by
          simp [bestStep, hs, hq]
        rw [hstep]
        have hq0 : 0 < validate a.resultText audioDuration := lt_of_le_of_lt hbq0 hq
        obtain ⟨i1, i2, i3, i4⟩ := ih (some a) (validate a.resultText audioDuration)
          (fun b hb => by
            rw [← Option.some.inj hb]
            exact ⟨hs, rfl, hq0⟩)
          (fun hb => by simp at hb)
        refine ⟨fun b hb => ?_, fun hb => ?_, fun x hx hxs => ?_, ?_⟩
        · obtain ⟨j1, j2, j3, j4⟩ := i1 b hb
          refine ⟨j1, j2, j3, ?_⟩
          rcases j4 with hmem | heq
          · exact Or.inl (List.mem_cons_of_mem a hmem)
          · exact Or.inl (Option.some.inj heq ▸ List.mem_cons_self a l)
        · exact absurd (i2 hb).2 (by simp)
        · rcases List.mem_cons.mp hx with rfl | hx'
          · exact i4
          · exact i3 x hx' hxs
        · exact le_trans (le_of_lt hq) i4
      · have hstep : bestStep audioDuration (best, bq) a = (best, bq) := by
          simp [bestStep, hs, hq]
        rw [hstep]
        obtain ⟨i1, i2, i3, i4⟩ := ih best bq h1 h2
        refine ⟨fun b hb => ?_, i2, fun x hx hxs => ?_, i4⟩
        · obtain ⟨j1, j2, j3, j4⟩ := i1 b hb
          refine ⟨j1, j2, j3, ?_⟩
          rcases j4 with hmem | heq
          · exact Or.inl (List.mem_cons_of_mem a hmem)
          · exact Or.inr heq
        · rcases List.mem_cons.mp hx with rfl | hx'
          · exact le_trans (le_of_not_lt hq) i4
          · exact i3 x hx' hxs
    · have hstep : bestStep audioDuration (best, bq) a = (best, bq) := by
        simp [bestStep, hs]
      rw [hstep]
      obtain ⟨i1, i2, i3, i4⟩ := ih best bq h1 h2
      refine ⟨fun b hb => ?_, i2, fun x hx hxs => ?_, i4⟩
      · obtain ⟨j1, j2, j3, j4⟩ := i1 b hb
        refine ⟨j1, j2, j3, ?_⟩
        rcases j4 with hmem | heq
        · exact Or.inl (List.mem_cons_of_mem a hmem)
        · exact Or.inr heq
      · rcases List.mem_cons.mp hx with rfl | hx'
        · exact absurd hxs hs
        · exact i3 x hx' hxs

/-- A successful attempt record carries a nonempty result text. -/
theorem executeStrategy_success_text (env : RecoveryEnv) (strategyName : RecoveryStrategy)
    (f : StrategyFn) (audioPath problematicText : List Char) (originalSettings : Settings)
    (audioDuration : Option ℚ) :
    (executeStrategy env strategyName f audioPath problematicText originalSettings
        audioDuration).success = true →
      (executeStrategy env strategyName f audioPath problematicText originalSettings
        audioDuration).resultText ≠ [] := by
  unfold executeStrategy
  cases hres : f env audioPath problematicText originalSettings with
  | error e => simp
  | ok resultText =>
    by_cases hempty : resultText = [] ∨ pyStrip resultText = []
    · simp [hempty]
    · have hne : resultText ≠ [] := fun hnil => hempty (Or.inl hnil)
      have hps : pyStrip resultText ≠ [] := fun hnil => hempty (Or.inr hnil)
      by_cases hloop : (detect defaultDetectorParams resultText audioDuration).hasLoop
      · simp [hempty, hne, hps, hloop]
      · simp [hempty, hne, hps, hloop]

/-- Every attempt record carries the tag of the strategy it ran. -/
theorem executeStrategy_strategy (env : RecoveryEnv) (strategyName : RecoveryStrategy)
    (f : StrategyFn) (audioPath problematicText : List Char) (originalSettings : Settings)
    (audioDuration : Option ℚ) :
    (executeStrategy env strategyName f audioPath problematicText originalSettings
      audioDuration).strategy = strategyName := by
  unfold executeStrategy
  cases f env audioPath problematicText originalSettings with
  | error e => rfl
  | ok resultText =>
    by_cases hempty : resultText = [] ∨ pyStrip resultText = []
    · simp [hempty]
    · have hne : resultText ≠ [] := fun hnil => hempty (Or.inl hnil)
      have hps : pyStrip resultText ≠ [] := fun hnil => hempty (Or.inr hnil)
      by_cases hloop : (detect defaultDetectorParams resultText audioDuration).hasLoop
      · simp [hempty, hne, hps, hloop]
      · simp [hempty, hne, hps, hloop]

/-- The synthesized emergency notice is never empty. -/
theorem generateEmergencyText_ne_nil (env : RecoveryEnv) (audioPath : List Char)
    (audioDuration : Option ℚ) (t : List Char)
    (h : generateEmergencyText env audioPath audioDuration = Except.ok t) : t ≠ [] := by
  have hstr : ∀ duration : ℚ,
      ("[ERRO DE TRANSCRIÇÃO - ".data ++ env.timestamp ++ "]\n".data ++
        "Áudio: ".data ++ basename audioPath ++ "\n".data ++
        "Duração: ".data ++ fmt1 duration ++ "s\n".data ++
        "Status: Todas as estratégias de recuperação falharam\n".data ++
        "Recomendação: Verificar qualidade do áudio ou tentar transcrição manual".data) ≠
        [] := by
    intro duration hnil
    simp at hnil
  unfold generateEmergencyText at h
  cases audioDuration with
  | none =>
    rcases hd : rmGetAudioDuration env audioPath with e | d
    · rw [hd] at h
      exact Except.noConfusion h
    · rw [hd] at h
      exact (Except.ok.inj h) ▸ hstr d
  | some d =>
    by_cases hd0 : d = 0
    · dsimp only at h
      rw [if_pos hd0] at h
      rcases hd : rmGetAudioDuration env audioPath with e | dd
      · rw [hd] at h
        exact Except.noConfusion h
      · rw [hd] at h
        exact (Except.ok.inj h) ▸ hstr dd
    · dsimp only at h
      rw [if_neg hd0] at h
      exact (Except.ok.inj h) ▸ hstr d

/-- Full characterisation of `recover_transcription`: the attempt count is
the length of the executed ladder prefix; a successful result returns the
text, tag and validation score of a best-scoring successful attempt (whose
score is strictly positive and maximal among the executed successful
attempts); a failed result carries the synthesized emergency notice, tag
EMERGENCY_FALLBACK and score 0, and occurs exactly when no executed
successful attempt scored above 0. -/
theorem recoverTranscription_characterization (env : RecoveryEnv)
    (audioPath problematicText : List Char) (originalSettings : Settings)
    (audioDuration : Option ℚ) (r : RecoveryResult)
    (hr : recoverTranscription env audioPath problematicText originalSettings audioDuration =
      Except.ok r) :
    r.attemptsMade =
      (executedAttempts env audioPath problematicText originalSettings audioDuration).length ∧
    (r.success = true →
      ∃ b ∈ executedAttempts env audioPath problematicText originalSettings audioDuration,
        b.success = true ∧ r.text = b.resultText ∧ r.strategyUsed = b.strategy ∧
        r.qualityScore = validate b.resultText audioDuration ∧ 0 < r.qualityScore ∧
        ∀ a ∈ executedAttempts env audioPath problematicText originalSettings audioDuration,
          a.success = true → validate a.resultText audioDuration ≤ r.qualityScore) ∧
    (r.success = false →
      generateEmergencyText env audioPath audioDuration = Except.ok r.text ∧
      r.strategyUsed = RecoveryStrategy.emergencyFallback ∧ r.qualityScore = 0 ∧
      ∀ a ∈ executedAttempts env audioPath problematicText originalSettings audioDuration,
        a.success = true → validate a.resultText audioDuration ≤ 0) ∧
    ((∃ a ∈ executedAttempts env audioPath problematicText originalSettings audioDuration,
        a.success = true ∧ 0 < validate a.resultText audioDuration) → r.success = true) := by
  unfold recoverTranscription at hr
  rw [recoverLoop_eq env audioPath problematicText originalSettings audioDuration strategies
    [] Option.none 0] at hr
  have hE : takeUntilAccept audioDuration (strategies.map fun s =>
      executeStrategy env s.1 s.2 audioPath problematicText originalSettings audioDuration) =
      executedAttempts env audioPath problematicText originalSettings audioDuration := rfl
  rw [hE] at hr
  simp only [List.nil_append] at hr
  obtain ⟨f1, f2, f3, f4⟩ := foldl_bestStep_spec audioDuration
    (executedAttempts env audioPath problematicText originalSettings audioDuration)
    Option.none 0 (fun b hb => by simp at hb) (fun _ => rfl)
  rcases hF : ((executedAttempts env audioPath problematicText originalSettings
      audioDuration).foldl (bestStep audioDuration) (Option.none, 0)).1 with _ | b
  · rw [hF] at hr
    obtain ⟨hz, -⟩ := f2 hF
    rcases hgen : generateEmergencyText env audioPath audioDuration with e | etext
    · rw [hgen] at hr
      exact Except.noConfusion hr
    · rw [hgen] at hr
      rw [← Except.ok.inj hr]
      refine ⟨rfl, ?_, ?_, ?_⟩
      · intro hsucc
        exact absurd hsucc (by simp)
      · intro _
        exact ⟨hgen.symm ▸ rfl, rfl, rfl, fun a ha hs => le_trans (f3 a ha hs) (le_of_eq hz)⟩
      · rintro ⟨a, ha, hs, hpos⟩
        have := f3 a ha hs
        rw [hz] at this
        exact absurd hpos (not_lt.mpr this)
  · rw [hF] at hr
    obtain ⟨j1, j2, j3, j4⟩ := f1 b hF
    rw [← Except.ok.inj hr]
    refine ⟨rfl, ?_, ?_, fun _ => rfl⟩
    · intro _
      have hbmem : b ∈ executedAttempts env audioPath problematicText originalSettings
          audioDuration := by
        rcases j4 with hmem | habs
        · exact hmem
        · exact absurd habs (by simp)
      exact ⟨b, hbmem, j1, rfl, rfl, j2, j2 ▸ j3, fun a ha hs => j2 ▸ f3 a ha hs⟩
    · intro hfalse
      exact absurd hfalse (by simp)

/-- C1 counterexample: a session whose only successful attempt is the
3-character `ok!` (quality score exactly 0).  No attempt crosses the
threshold, yet the run does not return the best-scoring executed attempt
(`ok!`): it returns a freshly generated emergency notice with
`success = false`. -/
theorem claim1_counterexample :
    ((scenarioShortLog.filter fun a => a.success).map fun a => a.resultText) =
      ["ok!".data] ∧
    scenarioShortRun = Except.ok scenarioShortResult ∧
    scenarioShortResult.success = false ∧
    scenarioShortResult.attemptsMade = 4 ∧
    scenarioShortResult.text ≠ "ok!".data := by
  decide

/-- C1 (amended): the strategies are tried in the strict order
CONSERVATIVE_SETTINGS, SMALLER_CHUNKS, SMALLER_MODEL (tiny), EMERGENCY_FALLBACK,
each at most once, stopping at the first attempt whose output is non-empty,
re-checked loop-free, and of quality score ≥ the acceptance threshold; the
returned text is a best-scoring executed attempt when some successful attempt
scored above 0, and otherwise a freshly synthesized emergency notice (with
`success = false`) — in neither case the unmodified original problematic
text fed back as such. -/
theorem claim1_recovery_ladder (env : RecoveryEnv) (audioPath problematicText : List Char)
    (originalSettings : Settings) (audioDuration : Option ℚ) :
    strategies.map Prod.fst = [RecoveryStrategy.conservativeSettings,
      RecoveryStrategy.smallerChunks, RecoveryStrategy.tinyModel,
      RecoveryStrategy.emergencyFallback] ∧
    ∀ r, recoverTranscription env audioPath problematicText originalSettings audioDuration =
        Except.ok r →
      r.attemptsMade =
        (executedAttempts env audioPath problematicText originalSettings audioDuration).length ∧
      ((∃ a ∈ executedAttempts env audioPath problematicText originalSettings audioDuration,
          a.success = true ∧ 0 < validate a.resultText audioDuration) → r.success = true) ∧
      (r.success = true →
        ∃ b ∈ executedAttempts env audioPath problematicText originalSettings audioDuration,
          b.success = true ∧ r.text = b.resultText ∧
          r.qualityScore = validate b.resultText audioDuration ∧
          ∀ a ∈ executedAttempts env audioPath problematicText originalSettings audioDuration,
            a.success = true → validate a.resultText audioDuration ≤ r.qualityScore) ∧
      (r.success = false →
        generateEmergencyText env audioPath audioDuration = Except.ok r.text ∧
        ∀ a ∈ executedAttempts env audioPath problematicText originalSettings audioDuration,
          a.success = true → validate a.resultText audioDuration ≤ 0) := by
  refine ⟨rfl, fun r hr => ?_⟩
  obtain ⟨c1, c2, c3, c4⟩ :=
    recoverTranscription_characterization env audioPath problematicText originalSettings
      audioDuration r hr
  refine ⟨c1, c4, ?_, ?_⟩
  · intro hsucc
    obtain ⟨b, hb, j1, j2, -, j3, -, j4⟩ := c2 hsucc
    exact ⟨b, hb, j1, j2, j3, j4⟩
  · intro hfail
    obtain ⟨g1, -, -, g2⟩ := c3 hfail
    exact ⟨g1, g2⟩

/-- C1 witness: the `ok!` session instantiating the amended theorem. -/
theorem claim1_witness :
    scenarioShortResult.attemptsMade =
      (executedAttempts scenarioShortEnv "audio.wav".data "xx".data [] (some 12)).length ∧
    (generateEmergencyText scenarioShortEnv "audio.wav".data (some 12) =
      Except.ok scenarioShortResult.text ∧
     ∀ a ∈ executedAttempts scenarioShortEnv "audio.wav".data "xx".data [] (some 12),
       a.success = true → validate a.resultText (some 12) ≤ 0) :=
  ⟨((claim1_recovery_ladder scenarioShortEnv "audio.wav".data "xx".data [] (some 12)).2
      scenarioShortResult (by decide)).1,
   ((claim1_recovery_ladder scenarioShortEnv "audio.wav".data "xx".data [] (some 12)).2
      scenarioShortResult (by decide)).2.2.2 (by decide)⟩

/-- C4 counterexample: against an engine whose every transcription call
raises (injected engine and tiny model alike), `recover_transcription` does
terminate at EMERGENCY_FALLBACK after exactly 4 attempts with non-empty text
— but its placeholder passes the quality gate, so the returned
`RecoveryResult` has `success = true`, not `false` as claimed. -/
theorem claim4_counterexample :
    scenarioFailEnv.transcribe "audio.wav".data (updateSettings [] conservativeUpdate) =
      Except.error "engine failure".data ∧
    scenarioFailEnv.tinyTranscribe "audio.wav".data (tinySettings []) =
      Except.error "engine failure".data ∧
    scenarioFailRun = Except.ok scenarioFailResult ∧
    scenarioFailResult.success = true ∧
    scenarioFailResult.attemptsMade = 4 ∧
    scenarioFailResult.strategyUsed = RecoveryStrategy.emergencyFallback ∧
    scenarioFailResult.text ≠ [] := by
  decide

/-- C4 (amended): when every engine transcription call raises (the injected
engine and the tiny model alike), the first three strategies all fail, so
any returned `RecoveryResult` reports exactly 4 attempts, strategy
EMERGENCY_FALLBACK and non-empty text — but its `success` flag is not
necessarily false: the emergency placeholder goes through the same quality
gate as any other attempt, and when it passes (e.g. the 8-second scenario
above) the result has `success = true`. -/
theorem exceptBind_ok {ε α β : Type} (a : α) (f : α → Except ε β) :
    (Except.ok a >>= f : Except ε β) = f a := rfl

theorem claim4_always_failing_engine (env : RecoveryEnv)
    (audioPath problematicText : List Char) (originalSettings : Settings)
    (audioDuration : Option ℚ)
    (hT : ∀ (p : List Char) (s : Settings) (t : List Char), env.transcribe p s ≠ Except.ok t)
    (hTiny : ∀ (p : List Char) (s : Settings) (t : List Char),
      env.tinyTranscribe p s ≠ Except.ok t) :
    ∀ r, recoverTranscription env audioPath problematicText originalSettings audioDuration =
        Except.ok r →
      r.attemptsMade = 4 ∧ r.strategyUsed = RecoveryStrategy.emergencyFallback ∧
      r.text ≠ [] := by
  have hA1 : (executeStrategy env RecoveryStrategy.conservativeSettings
      strategyConservativeSettings audioPath problematicText originalSettings
      audioDuration).success = false := by
    unfold executeStrategy
    rcases h1 : strategyConservativeSettings env audioPath problematicText originalSettings
      with e | t
    · rfl
    · unfold strategyConservativeSettings at h1
      exact absurd h1 (hT _ _ _)
  have hok2 : ∀ t, strategySmallerChunks env audioPath problematicText originalSettings =
      Except.ok t → t = [] := by
    intro t ht
    unfold strategySmallerChunks at ht
    rcases hd : rmGetAudioDuration env audioPath with e | d
    · rw [hd] at ht
      exact Except.noConfusion ht
    · rw [hd] at ht
      simp only [exceptBind_ok] at ht
      by_cases hle : d ≤ 10
      · rw [if_pos hle] at ht
        unfold strategyConservativeSettings at ht
        exact absurd ht (hT _ _ _)
      · rw [if_neg hle] at ht
        rcases hch : rmSplitAudio env audioPath 10 with e2 | chunks
        · rw [hch] at ht
          exact Except.noConfusion ht
        · rw [hch] at ht
          simp only [exceptBind_ok] at ht
          cases chunks with
          | nil => exact (Except.ok.inj ht).symm
          | cons c cs =>
            rw [List.mapM_cons] at ht
            rcases htr : env.transcribe c (updateSettings originalSettings smallerChunksUpdate)
              with e3 | t3
            · rw [htr] at ht
              exact Except.noConfusion ht
            · exact absurd htr (hT _ _ _)
  have hA2 : (executeStrategy env RecoveryStrategy.smallerChunks strategySmallerChunks
      audioPath problematicText originalSettings audioDuration).success = false := by
    unfold executeStrategy
    rcases h2 : strategySmallerChunks env audioPath problematicText originalSettings
      with e | t
    · rfl
    · rw [hok2 t h2]
      rfl
  have hA3 : (executeStrategy env RecoveryStrategy.tinyModel strategyTinyModel
      audioPath problematicText originalSettings audioDuration).success = false := by
    unfold executeStrategy
    rcases h3 : strategyTinyModel env audioPath problematicText originalSettings with e | t
    · rfl
    · unfold strategyTinyModel at h3
      rcases htt : env.tinyTranscribe audioPath (tinySettings originalSettings) with e4 | t4
      · rw [htt] at h3
        exact Except.noConfusion h3
      · exact absurd htt (hTiny _ _ _)
  have hexec : executedAttempts env audioPath problematicText originalSettings audioDuration =
      [executeStrategy env RecoveryStrategy.conservativeSettings strategyConservativeSettings
        audioPath problematicText originalSettings audioDuration,
       executeStrategy env RecoveryStrategy.smallerChunks strategySmallerChunks
        audioPath problematicText originalSettings audioDuration,
       executeStrategy env RecoveryStrategy.tinyModel strategyTinyModel
        audioPath problematicText originalSettings audioDuration,
       executeStrategy env RecoveryStrategy.emergencyFallback strategyEmergencyFallback
        audioPath problematicText originalSettings audioDuration] := by
    show takeUntilAccept audioDuration (allAttempts env audioPath problematicText
      originalSettings audioDuration) = _
    simp only [allAttempts, strategies, List.map_cons, List.map_nil]
    simp only [takeUntilAccept, hA1, hA2, hA3, Bool.false_and, Bool.false_eq_true, if_false]
    rw [ite_self]
  intro r hr
  obtain ⟨c1, c2, c3, c4⟩ := recoverTranscription_characterization env audioPath
    problematicText originalSettings audioDuration r hr
  have hlen : r.attemptsMade = 4 := by rw [c1, hexec]; rfl
  refine ⟨hlen, ?_, ?_⟩
  · cases hrs : r.success with
    | false => exact (c3 hrs).2.1
    | true =>
      obtain ⟨b, hbmem, hbs, -, hbstrat, -⟩ := c2 hrs
      rw [hexec] at hbmem
      simp only [List.mem_cons, List.not_mem_nil, or_false] at hbmem
      rcases hbmem with rfl | rfl | rfl | rfl
      · exact absurd hbs (by rw [hA1]; simp)
      · exact absurd hbs (by rw [hA2]; simp)
      · exact absurd hbs (by rw [hA3]; simp)
      · rw [hbstrat, executeStrategy_strategy]
  · cases hrs : r.success with
    | false =>
      obtain ⟨hgen, -, -, -⟩ := c3 hrs
      exact generateEmergencyText_ne_nil env audioPath audioDuration r.text hgen
    | true =>
      obtain ⟨b, hbmem, hbs, hbtext, -, -⟩ := c2 hrs
      rw [hexec] at hbmem
      simp only [List.mem_cons, List.not_mem_nil, or_false] at hbmem
      rcases hbmem with rfl | rfl | rfl | rfl
      · exact absurd hbs (by rw [hA1]; simp)
      · exact absurd hbs (by rw [hA2]; simp)
      · exact absurd hbs (by rw [hA3]; simp)
      · rw [hbtext]
        exact executeStrategy_success_text env RecoveryStrategy.emergencyFallback
          strategyEmergencyFallback audioPath problematicText originalSettings
          audioDuration hbs

/-- C4 witness: the always-failing scenario instantiating the amended
theorem. -/
theorem claim4_witness :
    scenarioFailResult.attemptsMade = 4 ∧
    scenarioFailResult.strategyUsed = RecoveryStrategy.emergencyFallback ∧
    scenarioFailResult.text ≠ [] :=
  claim4_always_failing_engine scenarioFailEnv "audio.wav".data "xx".data [] Option.none
    (fun _ _ _ h => Except.noConfusion h) (fun _ _ _ h => Except.noConfusion h)
    scenarioFailResult (by decide)

end VoxSynopsis
